import Mathlib

/-!
Verification of the SSE wire-protocol layer of the datastar-bun-hono-example
repository.

The repository ships two implementations of the same layer:

* `src/serverSentEventGenerator.ts` (the implementation the README points to):
  the `DatastarStreamingApi` mapper (`patchSignals`, `patchElements`,
  `executeScript`) producing `SSEMessage` records, and the inbound reader
  `readSignals` / `readSignalsFromQuery` / `readSignalsFromBody` with a
  1 MiB size limit on the `datastar` query parameter.
* `src/hono-sse.ts`: the `HonoDatastarSSE` class that builds SSE frames
  directly (`sendEvent`) for the five older protocol operations
  (`mergeSignals`, `mergeFragments`, `removeFragments`, `removeSignals`,
  `executeScript`) and its own `readSignals` without a size limit.

Both are embedded below, each in its own namespace (`SSEG` and `HonoSSE`).
JavaScript strings are modelled by `String` (a list of characters);
`JSON.stringify` / `JSON.parse` are modelled by an executable serializer and
parser over the `JsonValue` type (JSON numbers restricted to integers);
JavaScript exceptions are modelled by `Except String`, with `tryCatchE`
standing for a `try`/`catch` block.  Where an embedded function takes the
JSON parser as an argument, theorems quantify over every parser, which in
particular expresses that the parser is not invoked when the result does not
depend on it; functions that track how often `JSON.parse` was called return
that count as an extra `Nat`.
-/

-- # Generic line infrastructure: JavaScript `split('\n')` and `join('\n')`

/-- JavaScript `s.split('\n')` on character lists: always returns a non-empty
list of newline-free pieces. -/
def splitNl : List Char → List (List Char)
  | [] => [[]]
  | c :: cs =>
    match splitNl cs with
    | [] => [[]]
    | l :: ls => if c = '\n' then [] :: l :: ls else (c :: l) :: ls

/-- Joining character-list lines with a single `'\n'` between them. -/
def joinNl : List (List Char) → List Char
  | [] => []
  | [l] => l
  | l :: ls => l ++ '\n' :: joinNl ls

/-- JavaScript `array.join('\n')` over strings (as used by
`joinDataLines` and `messageParts.join('\n')` in the sources). -/
def joinParts : List String → String
  | [] => ""
  | [p] => p
  | p :: ps => p ++ "\n" ++ joinParts ps

/-- JavaScript `s.split('\n')` on strings. -/
def splitNlStr (s : String) : List String :=
  (splitNl s.data).map String.mk

/-- Boolean test that a string contains no newline character. -/
def noNlB (s : String) : Bool :=
  s.data.all (fun c => !(c == '\n'))

/-- Boolean prefix test on character lists (used to recognise `retry: ` and
`signals ` lines). -/
def hasPfx : List Char → List Char → Bool
  | [], _ => true
  | _ :: _, [] => false
  | p :: ps, c :: cs => p == c && hasPfx ps cs

-- # Decimal rendering of numbers (JavaScript template `${n}` / JSON.stringify)

/-- Fuel-based big-endian decimal digit accumulator; with `fuel ≥ n` it
produces the decimal digits of `n` in front of `acc`. -/
def natCharsAux : Nat → Nat → List Char → List Char
  | 0, _, acc => acc
  | _, 0, acc => acc
  | fuel + 1, n + 1, acc => natCharsAux fuel ((n + 1) / 10) (Nat.digitChar ((n + 1) % 10) :: acc)

/-- Decimal rendering of a natural number, exactly as JavaScript renders a
non-negative integer-valued number. -/
def natChars (n : Nat) : List Char :=
  if n = 0 then ['0'] else natCharsAux n n []

/-- Decimal rendering of an integer, exactly as JavaScript renders an
integer-valued number (minus sign followed by the decimal digits). -/
def intChars : Int → List Char
  | Int.ofNat m => natChars m
  | Int.negSucc m => '-' :: natChars (m + 1)

-- # JSON values, JSON.stringify

/-- JSON values (the payload shape shared by signals and parsed requests).
JSON numbers are restricted to integers: the repository's signals only carry
strings, and JavaScript floating-point rendering is out of scope. -/
inductive JsonValue where
  | null
  | bool (b : Bool)
  | num (n : Int)
  | str (s : String)
  | arr (elems : List JsonValue)
  | obj (fields : List (String × JsonValue))

/-- JSON string escaping of one character, exactly as `JSON.stringify`
escapes characters of a string value (quote, backslash, the five short
control escapes, `\u00XX` for the remaining control characters). -/
def escChar (c : Char) : List Char :=
  if c = '"' then ['\\', '"']
  else if c = '\\' then ['\\', '\\']
  else if c = '\x08' then ['\\', 'b']
  else if c = '\x09' then ['\\', 't']
  else if c = '\x0a' then ['\\', 'n']
  else if c = '\x0c' then ['\\', 'f']
  else if c = '\x0d' then ['\\', 'r']
  else if c.toNat < 32 then
    ['\\', 'u', '0', '0', Nat.digitChar (c.toNat / 16), Nat.digitChar (c.toNat % 16)]
  else [c]

/-- `JSON.stringify` of a string value: quoted, characters escaped. -/
def quoteChars (s : String) : List Char :=
  '"' :: (s.data.map escChar).flatten ++ ['"']

/-- Characters of the `null` keyword. -/
abbrev nullKw : List Char := ['n', 'u', 'l', 'l']

/-- Characters of the `true` keyword. -/
abbrev trueKw : List Char := ['t', 'r', 'u', 'e']

/-- Characters of the `false` keyword. -/
abbrev falseKw : List Char := ['f', 'a', 'l', 's', 'e']

mutual
/-- `JSON.stringify` (no space argument) as a character list. -/
def stringifyChars : JsonValue → List Char
  | .null => nullKw
  | .bool true => trueKw
  | .bool false => falseKw
  | .num n => intChars n
  | .str s => quoteChars s
  | .arr xs => '[' :: elemsChars xs ++ [']']
  | .obj fs => '\x7b' :: fieldsChars fs ++ ['\x7d']
/-- Comma-separated serializations of array elements. -/
def elemsChars : List JsonValue → List Char
  | [] => []
  | [x] => stringifyChars x
  | x :: xs => stringifyChars x ++ ',' :: elemsChars xs
/-- Comma-separated `"key":value` serializations of object members. -/
def fieldsChars : List (String × JsonValue) → List Char
  | [] => []
  | [(k, v)] => quoteChars k ++ ':' :: stringifyChars v
  | (k, v) :: fs => quoteChars k ++ ':' :: stringifyChars v ++ ',' :: fieldsChars fs
end

/-- `JSON.stringify` as a string. -/
def stringifyStr (v : JsonValue) : String :=
  String.mk (stringifyChars v)

-- # A JSON parser (the compliant client's decoder, and the model of JSON.parse)

/-- Value of one hexadecimal digit character. -/
def parseHexDigit (c : Char) : Option Nat :=
  if '0' ≤ c ∧ c ≤ '9' then some (c.toNat - 48)
  else if 'a' ≤ c ∧ c ≤ 'f' then some (c.toNat - 87)
  else if 'A' ≤ c ∧ c ≤ 'F' then some (c.toNat - 55)
  else none

/-- Parse the body of a JSON string (after the opening quote) up to the
closing quote, resolving escape sequences; returns the decoded characters
and the remaining input. -/
def parseStrAux : List Char → List Char → Option (List Char × List Char)
  | _, [] => none
  | acc, c :: rest =>
    if c = '"' then some (acc.reverse, rest)
    else if c = '\\' then
      match rest with
      | [] => none
      | e :: rest2 =>
        if e = '"' then parseStrAux ('"' :: acc) rest2
        else if e = '\\' then parseStrAux ('\\' :: acc) rest2
        else if e = '/' then parseStrAux ('/' :: acc) rest2
        else if e = 'b' then parseStrAux ('\x08' :: acc) rest2
        else if e = 't' then parseStrAux ('\x09' :: acc) rest2
        else if e = 'n' then parseStrAux ('\x0a' :: acc) rest2
        else if e = 'f' then parseStrAux ('\x0c' :: acc) rest2
        else if e = 'r' then parseStrAux ('\x0d' :: acc) rest2
        else if e = 'u' then
          match rest2 with
          | a :: b :: c2 :: d :: rest3 =>
            match parseHexDigit a, parseHexDigit b, parseHexDigit c2, parseHexDigit d with
            | some va, some vb, some vc, some vd =>
              parseStrAux (Char.ofNat (((va * 16 + vb) * 16 + vc) * 16 + vd) :: acc) rest3
            | _, _, _, _ => none
          | _ => none
        else none
    else parseStrAux (c :: acc) rest

/-- Consume a maximal run of decimal digits, accumulating their value. -/
def parseDigitsAux : Nat → List Char → Nat × List Char
  | acc, [] => (acc, [])
  | acc, c :: rest =>
    if c.isDigit then parseDigitsAux (acc * 10 + (c.toNat - 48)) rest else (acc, c :: rest)

/-- Parse a JSON integer (optional minus sign, maximal digit run). -/
def parseNum : List Char → Option (JsonValue × List Char)
  | [] => none
  | c :: rest =>
    if c = '-' then
      match rest with
      | [] => none
      | d :: rest2 =>
        if d.isDigit then
          let p := parseDigitsAux 0 (d :: rest2)
          some (.num (-(p.1 : Int)), p.2)
        else none
    else if c.isDigit then
      let p := parseDigitsAux 0 (c :: rest)
      some (.num ((p.1 : Nat) : Int), p.2)
    else none

mutual
/-- Fuel-indexed recursive-descent JSON parser: parse one value, returning it
with the unconsumed input. -/
def parseJ : Nat → List Char → Option (JsonValue × List Char)
  | 0, _ => none
  | fuel + 1, cs =>
    match cs with
    | [] => none
    | c :: rest =>
      if c = 'n' then
        match rest with
        | 'u' :: 'l' :: 'l' :: rest2 => some (.null, rest2)
        | _ => none
      else if c = 't' then
        match rest with
        | 'r' :: 'u' :: 'e' :: rest2 => some (.bool true, rest2)
        | _ => none
      else if c = 'f' then
        match rest with
        | 'a' :: 'l' :: 's' :: 'e' :: rest2 => some (.bool false, rest2)
        | _ => none
      else if c = '"' then (parseStrAux [] rest).map (fun p => (.str (String.mk p.1), p.2))
      else if c = '[' then (parseElems fuel rest).map (fun p => (.arr p.1, p.2))
      else if c = '\x7b' then (parseFields fuel rest).map (fun p => (.obj p.1, p.2))
      else parseNum (c :: rest)
/-- Parse the elements of an array after the opening bracket, including the
closing bracket. -/
def parseElems : Nat → List Char → Option (List JsonValue × List Char)
  | 0, _ => none
  | fuel + 1, cs =>
    match cs with
    | [] => none
    | c :: rest =>
      if c = ']' then some ([], rest)
      else
        match parseJ fuel (c :: rest) with
        | some (x, ',' :: rest2) => (parseElems fuel rest2).map (fun p => (x :: p.1, p.2))
        | some (x, ']' :: rest2) => some ([x], rest2)
        | _ => none
/-- Parse the members of an object after the opening brace, including the
closing brace. -/
def parseFields : Nat → List Char → Option (List (String × JsonValue) × List Char)
  | 0, _ => none
  | fuel + 1, cs =>
    match cs with
    | [] => none
    | c :: rest =>
      if c = '\x7d' then some ([], rest)
      else if c = '"' then
        match parseStrAux [] rest with
        | some (k, ':' :: rest2) =>
          match parseJ fuel rest2 with
          | some (v, ',' :: rest3) =>
            (parseFields fuel rest3).map (fun p => ((String.mk k, v) :: p.1, p.2))
          | some (v, '\x7d' :: rest3) => some ([(String.mk k, v)], rest3)
          | _ => none
        | _ => none
      else none
end

/-- Parse a complete JSON document (the whole input must be consumed). -/
def parseTop (cs : List Char) : Option JsonValue :=
  match parseJ (cs.length + 1) cs with
  | some (v, []) => some v
  | _ => none

/-- Model of `JSON.parse`: returns the value or throws a `SyntaxError`. -/
def JsonValue.parseE (s : String) : Except String JsonValue :=
  match parseTop s.data with
  | some v => .ok v
  | none => .error "Unexpected token"

mutual
/-- Fuel sufficient for `parseJ` to parse the serialization of a value. -/
def fuelJ : JsonValue → Nat
  | .null => 1
  | .bool _ => 1
  | .num _ => 1
  | .str _ => 1
  | .arr xs => fuelElems xs + 1
  | .obj fs => fuelFields fs + 1
/-- Fuel sufficient for `parseElems` on serialized array elements. -/
def fuelElems : List JsonValue → Nat
  | [] => 1
  | x :: xs => max (fuelJ x) (fuelElems xs) + 1
/-- Fuel sufficient for `parseFields` on serialized object members. -/
def fuelFields : List (String × JsonValue) → Nat
  | [] => 1
  | (_, v) :: fs => max (fuelJ v) (fuelFields fs) + 1
end

-- # Shared helpers for both embeddings

/-- Model of a JavaScript `try { body } catch (e) { handler(e) }` block in the
`Except String` exception monad. -/
def tryCatchE {α : Type} (body : Except String α) (handler : String → Except String α) :
    Except String α :=
  match body with
  | .ok a => .ok a
  | .error e => handler e

/-- Result type of `readSignals` in both implementations:
`{success:true, signals} | {success:false, error}`. -/
inductive ReadSignalsResponse where
  | success (signals : JsonValue)
  | failure (error : String)

/-- JavaScript `typeof v === "object" && v !== null` for a parsed JSON value
(arrays and objects). -/
def JsonValue.isObjLike : JsonValue → Bool
  | .arr _ => true
  | .obj _ => true
  | _ => false

-- # Embedding of src/serverSentEventGenerator.ts (namespace SSEG)

namespace SSEG

def EVENT_PATCH_SIGNALS : String := "datastar-patch-signals"

def EVENT_PATCH_ELEMENTS : String := "datastar-patch-elements"

/-- The `ElementPatchMode` union type. -/
inductive ElementPatchMode where
  | outer
  | inner
  | replace
  | prepend
  | append
  | before
  | after
  | remove
deriving DecidableEq

/-- The string literal denoted by each `ElementPatchMode` member. -/
def modeStr : ElementPatchMode → String
  | .outer => "outer"
  | .inner => "inner"
  | .replace => "replace"
  | .prepend => "prepend"
  | .append => "append"
  | .before => "before"
  | .after => "after"
  | .remove => "remove"

/-- `PatchSignalsParameters.options` (absent fields are `none`). -/
structure PatchSignalsOptions where
  eventId : Option String := none
  onlyIfMissing : Option Bool := none
  retryDuration : Option Nat := none

/-- `PatchElementsParameters.options` (absent fields are `none`). -/
structure PatchElementsOptions where
  mode : Option ElementPatchMode := none
  eventId : Option String := none
  selector : Option String := none
  retryDuration : Option Nat := none
  useViewTransition : Option Bool := none

/-- `ExecuteScriptParameters.options` (absent fields are `none`). -/
structure ExecuteScriptOptions where
  eventId : Option String := none
  attributes : Option (List String) := none
  autoRemove : Option Bool := none
  retryDuration : Option Nat := none

/-- The `DatastarSSEMessage` record handed to the underlying stream
(`id`, `retry`, `event`, `data`). -/
structure SSEMessage where
  id : Option String
  retry : Option Nat
  event : String
  data : String
deriving DecidableEq

/-- `joinDataLines`: `dataLines.join('\n')`. -/
def joinDataLines (dataLines : List String) : String :=
  joinParts dataLines

/-- `prefixDataLines`: `data.split('\n').map(line => prefix + ' ' + line)`. -/
def prefixDataLines (pfx : String) (data : String) : List String :=
  (splitNlStr data).map (fun line => pfx ++ " " ++ line)

/-- `patchSignals`: serialize the signals once, prefix each line with
`signals `, prepend the `onlyIfMissing true` control line when the option is
strictly `true`, and hand the message to the stream. -/
def patchSignals (signals : JsonValue) (options : PatchSignalsOptions) : SSEMessage :=
  let signalsString := stringifyStr signals
  let dataLines :=
    (if options.onlyIfMissing = some true then ["onlyIfMissing true"] else [])
      ++ prefixDataLines "signals" signalsString
  { id := options.eventId
    retry := options.retryDuration
    event := EVENT_PATCH_SIGNALS
    data := joinDataLines dataLines }

/-- `patchElements`: control lines (`mode` when supplied and different from
`outer`, `selector` when supplied and truthy, `useViewTransition` when
strictly `true`) followed by the `elements `-prefixed payload lines. -/
def patchElements (elements : String) (options : PatchElementsOptions) : SSEMessage :=
  let elementsString := elements
  let dataLines :=
    (match options.mode with
      | some m => if m ≠ .outer then ["mode " ++ modeStr m] else []
      | none => [])
      ++ (match options.selector with
        | some s => if s ≠ "" then ["selector " ++ s] else []
        | none => [])
      ++ (if options.useViewTransition = some true then ["useViewTransition true"] else [])
      ++ prefixDataLines "elements" elementsString
  { id := options.eventId
    retry := options.retryDuration
    event := EVENT_PATCH_ELEMENTS
    data := joinDataLines dataLines }

/-- The autoremoval attribute pushed by `executeScript`. -/
def AUTO_REMOVE_ATTRIBUTE : String := "data-effect=\"el.remove()\""

/-- `executeScript`, including the mutation it performs on the caller's
`options.attributes` array: `const attributes = options?.attributes ?? []`
aliases the caller's array, and `attributes.push(...)` appends to it, so the
call returns both the produced message and the options object as the caller
observes it after the call (`options.attributes` now holds the pushed
attribute when it was supplied and autoremoval was enabled). -/
def executeScriptCall (script : String) (options : ExecuteScriptOptions) :
    SSEMessage × ExecuteScriptOptions :=
  let attributes := options.attributes.getD []
  let shouldAutoRemove := options.autoRemove.getD true
  let attributes := if shouldAutoRemove then attributes ++ [AUTO_REMOVE_ATTRIBUTE] else attributes
  let attributesString :=
    if attributes.length > 0 then " " ++ String.intercalate " " attributes else ""
  let scriptElement := "<script" ++ attributesString ++ ">" ++ script ++ "</script>"
  let msg := patchElements scriptElement
    { mode := some .append
      selector := some "body"
      eventId := options.eventId
      retryDuration := options.retryDuration
      useViewTransition := none }
  (msg,
    match options.attributes, shouldAutoRemove with
    | some _, true => { options with attributes := some attributes }
    | _, _ => options)

/-- The message produced by one `executeScript` call. -/
def executeScript (script : String) (options : ExecuteScriptOptions) : SSEMessage :=
  (executeScriptCall script options).1

-- ## Inbound reader of serverSentEventGenerator.ts

def QUERY_PARAMETER : String := "datastar"

def MAX_JSON_SIZE : Nat := 1024 * 1024

def NO_DATASTAR_ERROR : String := "No datastar object in request"

def SIZE_ERROR : String := "Request payload too large"

def PARSE_ERROR : String := "Unknown error while parsing request"

/-- `readSignalsFromQuery`.  `query` models `req.query('datastar')`
(`none` = parameter absent); `parse` models `JSON.parse`, which may throw;
the `Nat` counts how many times the parser was invoked; the outer `Except`
models exceptions escaping the function (the `try`/`catch` around
`JSON.parse` is `tryCatchE`). -/
def readSignalsFromQuery (parse : String → Except String JsonValue)
    (query : Option String) : Except String (ReadSignalsResponse × Nat) :=
  match query with
  | none => .ok (.failure NO_DATASTAR_ERROR, 0)
  | some queryString =>
    if queryString = "" then .ok (.failure NO_DATASTAR_ERROR, 0)
    else if queryString.length > MAX_JSON_SIZE then .ok (.failure SIZE_ERROR, 0)
    else
      tryCatchE
        (do
          let signals ← parse queryString
          pure (ReadSignalsResponse.success signals, 1))
        (fun _ => .ok (.failure PARSE_ERROR, 1))

/-- `readSignalsFromBody`: `await req.json()` (modelled by `bodyJson`, which
may throw) inside a `try`/`catch`. -/
def readSignalsFromBody (bodyJson : Except String JsonValue) :
    Except String (ReadSignalsResponse × Nat) :=
  tryCatchE
    (do
      let signals ← bodyJson
      pure (ReadSignalsResponse.success signals, 1))
    (fun _ => .ok (.failure PARSE_ERROR, 1))

/-- `readSignals`: dispatch on the request method. -/
def readSignals (parse : String → Except String JsonValue) (method : String)
    (query : Option String) (bodyJson : Except String JsonValue) :
    Except String (ReadSignalsResponse × Nat) :=
  if method = "GET" then readSignalsFromQuery parse query
  else readSignalsFromBody bodyJson

end SSEG

-- # Embedding of src/hono-sse.ts (namespace HonoSSE)

namespace HonoSSE

def MERGE_SIGNALS : String := "datastar-merge-signals"

def MERGE_FRAGMENTS : String := "datastar-merge-fragments"

def REMOVE_FRAGMENTS : String := "datastar-remove-fragments"

def REMOVE_SIGNALS : String := "datastar-remove-signals"

def EXECUTE_SCRIPT : String := "datastar-execute-script"

def DEFAULT_RETRY_DURATION : Nat := 1000

def DATASTAR_PARAM_NAME : String := "datastar"

/-- `DatastarEventOptions`. -/
structure DatastarEventOptions where
  eventId : Option String := none
  retryDuration : Option Nat := none

/-- `MergeFragmentsOptions.mergeMode` union type. -/
inductive MergeMode where
  | morph
  | inner
  | outer
  | prepend
  | append
  | before
  | after
  | upsertAttributes
deriving DecidableEq

/-- The string literal denoted by each `MergeMode` member. -/
def mergeModeStr : MergeMode → String
  | .morph => "morph"
  | .inner => "inner"
  | .outer => "outer"
  | .prepend => "prepend"
  | .append => "append"
  | .before => "before"
  | .after => "after"
  | .upsertAttributes => "upsertAttributes"

/-- `MergeFragmentsOptions`. -/
structure MergeFragmentsOptions where
  eventId : Option String := none
  retryDuration : Option Nat := none
  selector : Option String := none
  mergeMode : Option MergeMode := none
  useViewTransition : Option Bool := none

/-- `MergeSignalsOptions`. -/
structure MergeSignalsOptions where
  eventId : Option String := none
  retryDuration : Option Nat := none
  onlyIfMissing : Option Bool := none

/-- `ExecuteScriptOptions.attributes`: `Record<string,string> | string[]`. -/
inductive AttrSpec where
  | list (attrs : List String)
  | record (entries : List (String × String))

/-- `ExecuteScriptOptions`. -/
structure ExecuteScriptOptions where
  eventId : Option String := none
  retryDuration : Option Nat := none
  attributes : Option AttrSpec := none
  autoRemove : Option Bool := none

/-- The `messageParts` array assembled by `sendEvent` before joining:
`event:` line, `id:` line when `eventId` is truthy, `retry:` line when
`retryDuration` is truthy and differs from the default, one `data:` line per
entry, then the two empty parts producing the final newlines. -/
def sendEventParts (eventType : String) (dataLines : List String)
    (options : DatastarEventOptions) : List String :=
  ["event: " ++ eventType]
    ++ (match options.eventId with
      | some i => if i ≠ "" then ["id: " ++ i] else []
      | none => [])
    ++ (match options.retryDuration with
      | some r => if r ≠ 0 ∧ r ≠ DEFAULT_RETRY_DURATION then ["retry: " ++ String.mk (natChars r)] else []
      | none => [])
    ++ dataLines.map (fun line => "data: " ++ line)
    ++ ["", ""]

/-- `sendEvent` of `hono-sse.ts`: `messageParts.join('\n')` (the encoded text
of one frame; enqueueing on the stream controller is outside the model). -/
def sendEvent (eventType : String) (dataLines : List String)
    (options : DatastarEventOptions) : String :=
  joinParts (sendEventParts eventType dataLines options)

/-- `mergeSignals`. -/
def mergeSignals (signals : JsonValue) (options : MergeSignalsOptions) : String :=
  let dataLines :=
    ["signals " ++ stringifyStr signals]
      ++ (if options.onlyIfMissing = some true then ["onlyIfMissing true"] else [])
  sendEvent MERGE_SIGNALS dataLines
    { eventId := options.eventId, retryDuration := options.retryDuration }

/-- `mergeFragments` (the fragments payload line comes first, then the
control lines). -/
def mergeFragments (fragments : String) (options : MergeFragmentsOptions) : String :=
  let dataLines :=
    ["fragments " ++ fragments]
      ++ (match options.selector with
        | some s => if s ≠ "" then ["selector " ++ s] else []
        | none => [])
      ++ (match options.mergeMode with
        | some m => if m ≠ .morph then ["mergeMode " ++ mergeModeStr m] else []
        | none => [])
      ++ (if options.useViewTransition = some true then ["useViewTransition true"] else [])
  sendEvent MERGE_FRAGMENTS dataLines
    { eventId := options.eventId, retryDuration := options.retryDuration }

/-- `removeFragments`. -/
def removeFragments (selector : String) (options : DatastarEventOptions) : String :=
  sendEvent REMOVE_FRAGMENTS ["selector " ++ selector] options

/-- `removeSignals`. -/
def removeSignals (paths : List String) (options : DatastarEventOptions) : String :=
  sendEvent REMOVE_SIGNALS (paths.map (fun path => "paths " ++ path)) options

/-- `executeScript` of `hono-sse.ts`: a distinct `datastar-execute-script`
event with `script`, `attributes` and `autoRemove` data lines. -/
def executeScript (script : String) (options : ExecuteScriptOptions) : String :=
  let dataLines :=
    ["script " ++ script]
      ++ (match options.attributes with
        | some (.list attrs) => attrs.map (fun attr => "attributes " ++ attr)
        | some (.record entries) =>
          entries.map (fun kv => "attributes " ++ kv.1 ++ " " ++ kv.2)
        | none => [])
      ++ (match options.autoRemove with
        | some b => ["autoRemove " ++ (if b then "true" else "false")]
        | none => [])
  sendEvent EXECUTE_SCRIPT dataLines
    { eventId := options.eventId, retryDuration := options.retryDuration }

/-- The five operations as one intent type (for properties quantified over
every supported intent). -/
inductive Intent where
  | mergeSignals (signals : JsonValue) (options : MergeSignalsOptions)
  | mergeFragments (fragments : String) (options : MergeFragmentsOptions)
  | removeFragments (selector : String) (options : DatastarEventOptions)
  | removeSignals (paths : List String) (options : DatastarEventOptions)
  | executeScript (script : String) (options : ExecuteScriptOptions)

/-- Encode one intent to its wire frame. -/
def encodeIntent : Intent → String
  | .mergeSignals signals options => mergeSignals signals options
  | .mergeFragments fragments options => mergeFragments fragments options
  | .removeFragments selector options => removeFragments selector options
  | .removeSignals paths options => removeSignals paths options
  | .executeScript script options => executeScript script options

/-- `sendEvent` of the part_002 string-concatenation variant: the same
header lines built by string concatenation, then `dataLines.map(...).join('\n')`,
then `"\n\n"`. -/
def sendEventV2 (eventType : String) (dataLines : List String)
    (options : DatastarEventOptions) : String :=
  let m1 := "event: " ++ eventType ++ "\n"
  let m2 := m1 ++ (match options.eventId with
    | some i => if i ≠ "" then "id: " ++ i ++ "\n" else ""
    | none => "")
  let m3 := m2 ++ (match options.retryDuration with
    | some r => if r ≠ 0 ∧ r ≠ 1000 then "retry: " ++ String.mk (natChars r) ++ "\n" else ""
    | none => "")
  let m4 := m3 ++ joinParts (dataLines.map (fun line => "data: " ++ line))
  m4 ++ "\n\n"

-- ## Inbound reader of hono-sse.ts

/-- `getErrorMessage`: every exception in the model carries a message string
(`new Error(msg)` and `SyntaxError` both satisfy `isErrorWithMessage`), so
the extraction is the identity. -/
def getErrorMessage (e : String) : String := e

/-- `parseSignalsFromParams`: `params` models the `datastar` search
parameter (`none` = `!params.has(...)`, `some ""` = present but empty, which
is falsy for `params.get(...)`); throws (returns `.error`) on a missing or
null parameter, a parse failure, or a non-object parse result. -/
def parseSignalsFromParams (parse : String → Except String JsonValue)
    (params : Option String) : Except String JsonValue :=
  match params with
  | none => .error "No datastar object in request"
  | some datastarParam =>
    if datastarParam = "" then .error "Datastar param is null"
    else do
      let signals ← parse datastarParam
      if signals.isObjLike then pure signals
      else .error "Datastar param is not a record"

/-- `parseSignalsFromBody`: `await c.req.text()` (modelled by `bodyText`,
which may throw) followed by `JSON.parse` on the text. -/
def parseSignalsFromBody (parse : String → Except String JsonValue)
    (bodyText : Except String String) : Except String JsonValue := do
  let body ← bodyText
  parse body

/-- `readSignals` of `hono-sse.ts`: the whole dispatch sits in one
`try`/`catch` whose handler turns the thrown message into the failure
variant. -/
def readSignals (parse : String → Except String JsonValue) (method : String)
    (params : Option String) (bodyText : Except String String) :
    Except String ReadSignalsResponse :=
  tryCatchE
    (if method = "GET" then do
      let signals ← parseSignalsFromParams parse params
      pure (ReadSignalsResponse.success signals)
    else do
      let signals ← parseSignalsFromBody parse bodyText
      pure (ReadSignalsResponse.success signals))
    (fun e => .ok (.failure (getErrorMessage e)))

end HonoSSE

-- # Remaining shared definitions used by the claims

/-- Modelled from the spec: the browser-side compliant client's generic
"extract JSON from a `signals ` line" decode (the client consumer is outside
this repository): strip the `signals ` prefix and parse the JSON payload. -/
def clientDecodeLine (line : String) : Option JsonValue :=
  if hasPfx "signals ".data line.data then parseTop (line.data.drop 8) else none

/-- Checker for the frame shape demanded by the spec: the split lines of the
frame text end with exactly two empty pieces (text ends with exactly one
blank line) and every earlier line is non-empty (no blank line before the
terminator). -/
def frameShapeOk (lines : List String) : Bool :=
  match lines.reverse with
  | "" :: "" :: content => content.all (fun l => !(l == ""))
  | _ => false

/-- A concrete `datastar` query parameter value longer than the 1 MiB
limit (1048577 characters). -/
def bigStr : String := String.mk (List.replicate 1048577 'a')


/-- The input's head is not a decimal digit (parsing a serialized number
followed by such a remainder stops exactly at the remainder). -/
def noDigitHead : List Char → Prop
  | [] => True
  | c :: _ => c.isDigit = false

/-- Newline-freeness of an optional string (absent strings are clean). -/
def optClean (o : Option String) : Bool :=
  noNlB (o.getD "")

/-- Newline-freeness of an `attributes` value. -/
def attrsClean : Option HonoSSE.AttrSpec → Bool
  | none => true
  | some (.list attrs) => attrs.all noNlB
  | some (.record entries) => entries.all (fun kv => noNlB kv.1 && noNlB kv.2)

/-- Newline-freeness of all caller-supplied payload strings of an intent
(serialized signals are always newline-free, so `mergeSignals` only
constrains its event id). -/
def intentClean : HonoSSE.Intent → Bool
  | .mergeSignals _ options => optClean options.eventId
  | .mergeFragments fragments options =>
    noNlB fragments && optClean options.selector && optClean options.eventId
  | .removeFragments selector options => noNlB selector && optClean options.eventId
  | .removeSignals paths options => paths.all noNlB && optClean options.eventId
  | .executeScript script options =>
    noNlB script && attrsClean options.attributes && optClean options.eventId

/-- Whether some line of the frame text is a `retry: ` line. -/
def retryLinePresent (frame : String) : Bool :=
  (splitNlStr frame).any (fun l => hasPfx "retry: ".data l.data)

-- # Infrastructure lemmas: split/join round trips and prefix tests

theorem splitNl_ne_nil : ∀ cs, splitNl cs ≠ []
  | [] => by simp [splitNl]
  | c :: cs => by
    simp only [splitNl]
    cases h : splitNl cs with
    | nil => simp
    | cons l ls => by_cases hc : c = '\n' <;> simp [hc]

theorem splitNl_of_no_nl (cs : List Char) (h : '\n' ∉ cs) : splitNl cs = [cs] := by
  induction cs with
  | nil => simp [splitNl]
  | cons c cs ih =>
    simp only [List.mem_cons, not_or] at h
    simp [splitNl, ih h.2, Ne.symm h.1]

theorem splitNl_append_nl (cs rest : List Char) (h : '\n' ∉ cs) :
    splitNl (cs ++ '\n' :: rest) = cs :: splitNl rest := by
  induction cs with
  | nil =>
    simp only [List.nil_append, splitNl]
    cases hr : splitNl rest with
    | nil => exact absurd hr (splitNl_ne_nil rest)
    | cons l ls => simp
  | cons c cs ih =>
    simp only [List.mem_cons, not_or] at h
    show splitNl (c :: (cs ++ '\n' :: rest)) = (c :: cs) :: splitNl rest
    simp only [splitNl]
    rw [ih h.2]
    simp [Ne.symm h.1]

theorem splitNl_joinNl : ∀ css, css ≠ [] → (∀ cs ∈ css, '\n' ∉ cs) →
    splitNl (joinNl css) = css
  | [], h, _ => absurd rfl h
  | [l], _, hn => by simp [joinNl, splitNl_of_no_nl l (hn l (by simp))]
  | l :: l2 :: ls, _, hn => by
    have hrec := splitNl_joinNl (l2 :: ls) (by simp)
      (fun cs hcs => hn cs (List.mem_cons_of_mem l hcs))
    simp only [joinNl]
    rw [splitNl_append_nl _ _ (hn l (by simp)), hrec]

theorem joinParts_data : ∀ ps : List String,
    (joinParts ps).data = joinNl (ps.map String.data)
  | [] => rfl
  | [p] => by simp [joinParts, joinNl]
  | p :: p2 :: ps => by
    have hrec := joinParts_data (p2 :: ps)
    simp only [joinParts, joinNl, List.map_cons]
    rw [String.data_append, String.data_append, hrec]
    simp [joinNl]

theorem noNlB_iff (s : String) : noNlB s = true ↔ '\n' ∉ s.data := by
  simp only [noNlB, List.all_eq_true, Bool.not_eq_true', beq_eq_false_iff_ne]
  constructor
  · intro h hm; exact (h '\n' hm) rfl
  · intro h c hc hcn; exact h (hcn ▸ hc)

theorem splitNlStr_joinParts (ps : List String) (hne : ps ≠ [])
    (hn : ∀ p ∈ ps, noNlB p = true) : splitNlStr (joinParts ps) = ps := by
  unfold splitNlStr
  rw [joinParts_data, splitNl_joinNl (ps.map String.data)
    (by simpa using hne)
    (by
      intro cs hcs
      simp only [List.mem_map] at hcs
      obtain ⟨p, hp, rfl⟩ := hcs
      exact (noNlB_iff p).mp (hn p hp))]
  rw [List.map_map]
  clear hn hne
  induction ps with
  | nil => rfl
  | cons p ps ih => rw [List.map_cons, ih]; rfl

theorem hasPfx_append_self (p cs : List Char) : hasPfx p (p ++ cs) = true := by
  induction p with
  | nil => simp [hasPfx]
  | cons c p ih => simp [hasPfx, ih]

theorem hasPfx_ne_head (p c : Char) (ps cs : List Char) (h : c ≠ p) :
    hasPfx (p :: ps) (c :: cs) = false := by
  simp only [hasPfx, Bool.and_eq_false_imp, beq_iff_eq]
  intro hq
  exact absurd hq.symm h

theorem hasPfx_nil_right (p : Char) (ps : List Char) : hasPfx (p :: ps) [] = false := rfl

-- # Decimal digit lemmas

theorem natCharsAux_eq_digits : ∀ n fuel acc, n ≤ fuel →
    natCharsAux fuel n acc = ((Nat.digits 10 n).map Nat.digitChar).reverse ++ acc := by
  intro n
  induction n using Nat.strong_induction_on with
  | _ n ih =>
    intro fuel acc hle
    match n, fuel with
    | 0, 0 => simp [natCharsAux]
    | 0, f + 1 => simp [natCharsAux]
    | n + 1, f + 1 =>
      rw [natCharsAux]
      rw [ih ((n + 1) / 10) (by omega) f _ (by omega)]
      rw [Nat.digits_def' (by norm_num : 1 < 10) (by omega : 0 < n + 1)]
      simp

theorem natChars_eq_digits (n : Nat) (h : n ≠ 0) :
    natChars n = ((Nat.digits 10 n).map Nat.digitChar).reverse := by
  unfold natChars
  rw [if_neg h, natCharsAux_eq_digits n n [] le_rfl]
  simp

theorem digitChar_isDigit (d : Nat) (h : d < 10) : (Nat.digitChar d).isDigit = true := by
  interval_cases d <;> decide

theorem digitChar_toNat (d : Nat) (h : d < 10) : (Nat.digitChar d).toNat - 48 = d := by
  interval_cases d <;> decide

theorem natChars_all_digit (n : Nat) : ∀ c ∈ natChars n, c.isDigit = true := by
  by_cases h : n = 0
  · subst h; intro c hc; simp [natChars] at hc; subst hc; decide
  · rw [natChars_eq_digits n h]
    intro c hc
    simp only [List.mem_reverse, List.mem_map] at hc
    obtain ⟨d, hd, rfl⟩ := hc
    exact digitChar_isDigit d (Nat.digits_lt_base (by norm_num) hd)

theorem natChars_ne_nil (n : Nat) : natChars n ≠ [] := by
  by_cases h : n = 0
  · subst h; simp [natChars]
  · rw [natChars_eq_digits n h]
    simp [Nat.digits_ne_nil_iff_ne_zero.mpr h]

theorem natChars_no_nl (n : Nat) : '\n' ∉ natChars n := by
  intro hm
  have := natChars_all_digit n '\n' hm
  simp [Char.isDigit] at this

theorem isDigit_ne (c : Char) (h : c.isDigit = true) (d : Char)
    (hd : d.isDigit = false) : c ≠ d := by
  intro heq
  subst heq
  rw [h] at hd
  cases hd

-- # Digit-run round trip

theorem parseDigitsAux_map (ds : List Nat) (acc : Nat) (rest : List Char)
    (hds : ∀ d ∈ ds, d < 10) (hrest : noDigitHead rest) :
    parseDigitsAux acc (ds.map Nat.digitChar ++ rest) =
      (ds.foldl (fun a d => a * 10 + d) acc, rest) := by
  induction ds generalizing acc with
  | nil =>
    cases rest with
    | nil => simp [parseDigitsAux]
    | cons c cs =>
      simp only [noDigitHead] at hrest
      simp [parseDigitsAux, hrest]
  | cons d ds ih =>
    have hd : d < 10 := hds d (by simp)
    simp only [List.map_cons, List.cons_append, parseDigitsAux,
      digitChar_isDigit d hd, if_pos]
    rw [digitChar_toNat d hd]
    exact ih (acc * 10 + d) (fun x hx => hds x (by simp [hx]))

theorem foldr_eq_ofDigits : ∀ L : List Nat, L.foldr (fun d a => a * 10 + d) 0 = Nat.ofDigits 10 L := by
  intro L
  induction L with
  | nil => simp [Nat.ofDigits]
  | cons d L ih => simp [Nat.ofDigits_cons, ih]; ring

theorem parseDigits_natChars (n : Nat) (rest : List Char) (hrest : noDigitHead rest) :
    parseDigitsAux 0 (natChars n ++ rest) = (n, rest) := by
  by_cases h : n = 0
  · subst h
    have : natChars 0 = [Nat.digitChar 0] := by decide
    rw [this]
    have := parseDigitsAux_map [0] 0 rest (by simp) hrest
    simpa using this
  · rw [natChars_eq_digits n h, ← List.map_reverse]
    rw [parseDigitsAux_map _ 0 rest
      (fun d hd => Nat.digits_lt_base (by norm_num) (List.mem_reverse.mp hd)) hrest]
    rw [List.foldl_reverse, foldr_eq_ofDigits, Nat.ofDigits_digits]

theorem parseNum_intChars (n : Int) (rest : List Char) (hrest : noDigitHead rest) :
    parseNum (intChars n ++ rest) = some (.num n, rest) := by
  cases n with
  | ofNat m =>
    cases hcs : natChars m with
    | nil => exact absurd hcs (natChars_ne_nil m)
    | cons c cs =>
      have hcd : c.isDigit = true := natChars_all_digit m c (by rw [hcs]; simp)
      show parseNum (natChars m ++ rest) = _
      rw [hcs]
      simp only [List.cons_append, parseNum]
      rw [if_neg (isDigit_ne c hcd '-' (by decide)), if_pos hcd]
      have hp : parseDigitsAux 0 (c :: (cs ++ rest)) = (m, rest) := by
        have := parseDigits_natChars m rest hrest
        rw [hcs] at this
        simpa using this
      simp [hp]
  | negSucc m =>
    show parseNum ('-' :: (natChars (m + 1) ++ rest)) = _
    cases hcs : natChars (m + 1) with
    | nil => exact absurd hcs (natChars_ne_nil (m + 1))
    | cons c cs =>
      have hcd : c.isDigit = true := natChars_all_digit (m + 1) c (by rw [hcs]; simp)
      simp only [List.cons_append, parseNum, if_true]
      rw [if_pos hcd]
      have hp : parseDigitsAux 0 (c :: (cs ++ rest)) = (m + 1, rest) := by
        have := parseDigits_natChars (m + 1) rest hrest
        rw [hcs] at this
        simpa using this
      simp only [hp, Int.negSucc_eq, Nat.cast_add, Nat.cast_one]

-- # String-escape round trip

theorem parseHexDigit_digitChar (d : Nat) (h : d < 16) :
    parseHexDigit (Nat.digitChar d) = some d := by
  interval_cases d <;> decide

theorem parseStrAux_quote (acc rest : List Char) :
    parseStrAux acc ('"' :: rest) = some (acc.reverse, rest) := by
  conv_lhs => unfold parseStrAux
  simp

theorem parseStrAux_plain (acc : List Char) (c : Char) (rest : List Char)
    (h1 : c ≠ '"') (h2 : c ≠ '\\') :
    parseStrAux acc (c :: rest) = parseStrAux (c :: acc) rest := by
  conv_lhs => unfold parseStrAux
  simp [h1, h2]

theorem parseStrAux_esc_quote (acc rest : List Char) :
    parseStrAux acc ('\\' :: '"' :: rest) = parseStrAux ('"' :: acc) rest := by
  conv_lhs => unfold parseStrAux
  simp

theorem parseStrAux_esc_bslash (acc rest : List Char) :
    parseStrAux acc ('\\' :: '\\' :: rest) = parseStrAux ('\\' :: acc) rest := by
  conv_lhs => unfold parseStrAux
  simp

theorem parseStrAux_esc_b (acc rest : List Char) :
    parseStrAux acc ('\\' :: 'b' :: rest) = parseStrAux ('\x08' :: acc) rest := by
  conv_lhs => unfold parseStrAux
  simp

theorem parseStrAux_esc_t (acc rest : List Char) :
    parseStrAux acc ('\\' :: 't' :: rest) = parseStrAux ('\x09' :: acc) rest := by
  conv_lhs => unfold parseStrAux
  simp

theorem parseStrAux_esc_n (acc rest : List Char) :
    parseStrAux acc ('\\' :: 'n' :: rest) = parseStrAux ('\x0a' :: acc) rest := by
  conv_lhs => unfold parseStrAux
  simp

theorem parseStrAux_esc_f (acc rest : List Char) :
    parseStrAux acc ('\\' :: 'f' :: rest) = parseStrAux ('\x0c' :: acc) rest := by
  conv_lhs => unfold parseStrAux
  simp

theorem parseStrAux_esc_r (acc rest : List Char) :
    parseStrAux acc ('\\' :: 'r' :: rest) = parseStrAux ('\x0d' :: acc) rest := by
  conv_lhs => unfold parseStrAux
  simp

theorem parseStrAux_esc_u (acc : List Char) (a b c2 d : Char) (rest : List Char)
    (va vb vc vd : Nat) (ha : parseHexDigit a = some va) (hb : parseHexDigit b = some vb)
    (hc : parseHexDigit c2 = some vc) (hd : parseHexDigit d = some vd) :
    parseStrAux acc ('\\' :: 'u' :: a :: b :: c2 :: d :: rest) =
      parseStrAux (Char.ofNat (((va * 16 + vb) * 16 + vc) * 16 + vd) :: acc) rest := by
  conv_lhs => unfold parseStrAux
  simp [ha, hb, hc, hd]

theorem parseStrAux_esc (cs : List Char) : ∀ acc rest,
    parseStrAux acc ((cs.map escChar).flatten ++ '"' :: rest) = some (acc.reverse ++ cs, rest) := by
  induction cs with
  | nil =>
    intro acc rest
    simpa using parseStrAux_quote acc rest
  | cons c cs ih =>
    intro acc rest
    simp only [List.map_cons, List.flatten_cons, List.append_assoc]
    rw [escChar]
    split_ifs with h1 h2 h3 h4 h5 h6 h7 h8
    · subst h1
      simp only [List.cons_append, List.nil_append, List.append_assoc]
      rw [parseStrAux_esc_quote, ih]
      simp
    · subst h2
      simp only [List.cons_append, List.nil_append, List.append_assoc]
      rw [parseStrAux_esc_bslash, ih]
      simp
    · subst h3
      simp only [List.cons_append, List.nil_append, List.append_assoc]
      rw [parseStrAux_esc_b, ih]
      simp
    · subst h4
      simp only [List.cons_append, List.nil_append, List.append_assoc]
      rw [parseStrAux_esc_t, ih]
      simp
    · subst h5
      simp only [List.cons_append, List.nil_append, List.append_assoc]
      rw [parseStrAux_esc_n, ih]
      simp
    · subst h6
      simp only [List.cons_append, List.nil_append, List.append_assoc]
      rw [parseStrAux_esc_f, ih]
      simp
    · subst h7
      simp only [List.cons_append, List.nil_append, List.append_assoc]
      rw [parseStrAux_esc_r, ih]
      simp
    · simp only [List.cons_append, List.nil_append, List.append_assoc]
      rw [parseStrAux_esc_u acc '0' '0' (Nat.digitChar (c.toNat / 16))
        (Nat.digitChar (c.toNat % 16)) _ 0 0 (c.toNat / 16) (c.toNat % 16)
        (by decide) (by decide)
        (parseHexDigit_digitChar (c.toNat / 16) (by omega))
        (parseHexDigit_digitChar (c.toNat % 16) (by omega))]
      have hcode : (((0 * 16 + 0) * 16 + c.toNat / 16) * 16 + c.toNat % 16) = c.toNat := by
        omega
      rw [hcode, Char.ofNat_toNat, ih]
      simp
    · simp only [List.cons_append, List.nil_append]
      rw [parseStrAux_plain acc c _ h1 h2, ih]
      simp

-- # Parser step lemmas

theorem parseJ_null (fuel : Nat) (rest : List Char) :
    parseJ (fuel + 1) ('n' :: 'u' :: 'l' :: 'l' :: rest) = some (.null, rest) := by
  simp only [parseJ]
  simp

theorem parseJ_true (fuel : Nat) (rest : List Char) :
    parseJ (fuel + 1) ('t' :: 'r' :: 'u' :: 'e' :: rest) = some (.bool true, rest) := by
  simp only [parseJ]
  simp

theorem parseJ_false (fuel : Nat) (rest : List Char) :
    parseJ (fuel + 1) ('f' :: 'a' :: 'l' :: 's' :: 'e' :: rest) = some (.bool false, rest) := by
  simp only [parseJ]
  simp

theorem parseJ_str (fuel : Nat) (rest : List Char) :
    parseJ (fuel + 1) ('"' :: rest) =
      (parseStrAux [] rest).map (fun p => (.str (String.mk p.1), p.2)) := by
  simp only [parseJ]
  simp

theorem parseJ_arr (fuel : Nat) (rest : List Char) :
    parseJ (fuel + 1) ('[' :: rest) =
      (parseElems fuel rest).map (fun p => (.arr p.1, p.2)) := by
  simp only [parseJ]
  simp

theorem parseJ_obj (fuel : Nat) (rest : List Char) :
    parseJ (fuel + 1) ('\x7b' :: rest) =
      (parseFields fuel rest).map (fun p => (.obj p.1, p.2)) := by
  simp only [parseJ]
  simp

theorem parseJ_num (fuel : Nat) (c : Char) (rest : List Char)
    (h1 : c ≠ 'n') (h2 : c ≠ 't') (h3 : c ≠ 'f') (h4 : c ≠ '"') (h5 : c ≠ '[')
    (h6 : c ≠ '\x7b') :
    parseJ (fuel + 1) (c :: rest) = parseNum (c :: rest) := by
  simp only [parseJ]
  simp [h1, h2, h3, h4, h5, h6]

theorem parseElems_close (fuel : Nat) (rest : List Char) :
    parseElems (fuel + 1) (']' :: rest) = some ([], rest) := by
  simp only [parseElems]
  simp

theorem parseElems_cons_comma (fuel : Nat) (c : Char) (rest rest2 : List Char)
    (x : JsonValue) (hne : c ≠ ']') (hp : parseJ fuel (c :: rest) = some (x, ',' :: rest2)) :
    parseElems (fuel + 1) (c :: rest) =
      (parseElems fuel rest2).map (fun p => (x :: p.1, p.2)) := by
  simp only [parseElems]
  simp [hne, hp]

theorem parseElems_cons_close (fuel : Nat) (c : Char) (rest rest2 : List Char)
    (x : JsonValue) (hne : c ≠ ']') (hp : parseJ fuel (c :: rest) = some (x, ']' :: rest2)) :
    parseElems (fuel + 1) (c :: rest) = some ([x], rest2) := by
  simp only [parseElems]
  simp [hne, hp]

theorem parseFields_close (fuel : Nat) (rest : List Char) :
    parseFields (fuel + 1) ('\x7d' :: rest) = some ([], rest) := by
  simp only [parseFields]
  simp

theorem parseFields_cons_comma (fuel : Nat) (rest rest2 rest3 : List Char)
    (k : List Char) (v : JsonValue)
    (hk : parseStrAux [] rest = some (k, ':' :: rest2))
    (hv : parseJ fuel rest2 = some (v, ',' :: rest3)) :
    parseFields (fuel + 1) ('"' :: rest) =
      (parseFields fuel rest3).map (fun p => ((String.mk k, v) :: p.1, p.2)) := by
  simp only [parseFields]
  simp [hk, hv]

theorem parseFields_cons_close (fuel : Nat) (rest rest2 rest3 : List Char)
    (k : List Char) (v : JsonValue)
    (hk : parseStrAux [] rest = some (k, ':' :: rest2))
    (hv : parseJ fuel rest2 = some (v, '\x7d' :: rest3)) :
    parseFields (fuel + 1) ('"' :: rest) = some ([(String.mk k, v)], rest3) := by
  simp only [parseFields]
  simp [hk, hv]

-- # Round trip: parse (stringify v) = v

theorem fuelJ_pos (v : JsonValue) : 1 ≤ fuelJ v := by
  cases v <;> simp [fuelJ]

theorem fuelElems_pos (xs : List JsonValue) : 1 ≤ fuelElems xs := by
  cases xs <;> simp [fuelElems]

theorem fuelFields_pos (fs : List (String × JsonValue)) : 1 ≤ fuelFields fs := by
  cases fs with
  | nil => simp [fuelFields]
  | cons f fs => cases f; simp [fuelFields]

theorem stringify_head (v : JsonValue) :
    ∃ c cs, stringifyChars v = c :: cs ∧ c ≠ ']' ∧ c ≠ '\x7d' := by
  cases v with
  | null =>
    exact ⟨'n', ['u', 'l', 'l'], by simp [stringifyChars], by decide, by decide⟩
  | bool b =>
    cases b with
    | false => exact ⟨'f', ['a', 'l', 's', 'e'], by simp [stringifyChars], by decide, by decide⟩
    | true => exact ⟨'t', ['r', 'u', 'e'], by simp [stringifyChars], by decide, by decide⟩
  | num n =>
    cases n with
    | ofNat m =>
      cases hcs : natChars m with
      | nil => exact absurd hcs (natChars_ne_nil m)
      | cons c cs =>
        have hcd : c.isDigit = true := natChars_all_digit m c (by rw [hcs]; simp)
        exact ⟨c, cs, by simp [stringifyChars, intChars, hcs],
          isDigit_ne c hcd ']' (by decide), isDigit_ne c hcd '\x7d' (by decide)⟩
    | negSucc m =>
      exact ⟨'-', natChars (m + 1), by simp [stringifyChars, intChars], by decide, by decide⟩
  | str s =>
    exact ⟨'"', (s.data.map escChar).flatten ++ ['"'],
      by simp [stringifyChars, quoteChars], by decide, by decide⟩
  | arr xs =>
    exact ⟨'[', elemsChars xs ++ [']'], by simp [stringifyChars], by decide, by decide⟩
  | obj fs =>
    exact ⟨'\x7b', fieldsChars fs ++ ['\x7d'], by simp [stringifyChars], by decide, by decide⟩

theorem parseRT : ∀ fuel : Nat,
    (∀ v rest, fuelJ v ≤ fuel → noDigitHead rest →
      parseJ fuel (stringifyChars v ++ rest) = some (v, rest)) ∧
    (∀ xs rest, fuelElems xs ≤ fuel →
      parseElems fuel (elemsChars xs ++ ']' :: rest) = some (xs, rest)) ∧
    (∀ fs rest, fuelFields fs ≤ fuel →
      parseFields fuel (fieldsChars fs ++ '\x7d' :: rest) = some (fs, rest)) := by
  intro fuel
  induction fuel with
  | zero =>
    exact ⟨fun v rest hf _ => absurd hf (by have := fuelJ_pos v; omega),
      fun xs rest hf => absurd hf (by have := fuelElems_pos xs; omega),
      fun fs rest hf => absurd hf (by have := fuelFields_pos fs; omega)⟩
  | succ f ihp =>
    obtain ⟨ihJ, ihE, ihF⟩ := ihp
    refine ⟨?_, ?_, ?_⟩
    · -- parseJ on a serialized value
      intro v rest hf hrest
      cases v with
      | null => simpa [stringifyChars] using parseJ_null f rest
      | bool b =>
        cases b with
        | false => simpa [stringifyChars] using parseJ_false f rest
        | true => simpa [stringifyChars] using parseJ_true f rest
      | num n =>
        simp only [stringifyChars]
        cases n with
        | ofNat m =>
          have hnum := parseNum_intChars (Int.ofNat m) rest hrest
          simp only [intChars] at hnum ⊢
          cases hcs : natChars m with
          | nil => exact absurd hcs (natChars_ne_nil m)
          | cons c cs =>
            have hcd : c.isDigit = true := natChars_all_digit m c (by rw [hcs]; simp)
            rw [hcs] at hnum
            simp only [List.cons_append] at hnum ⊢
            rw [parseJ_num f c _ (isDigit_ne c hcd 'n' (by decide))
              (isDigit_ne c hcd 't' (by decide)) (isDigit_ne c hcd 'f' (by decide))
              (isDigit_ne c hcd '"' (by decide)) (isDigit_ne c hcd '[' (by decide))
              (isDigit_ne c hcd '\x7b' (by decide))]
            exact hnum
        | negSucc m =>
          have hnum := parseNum_intChars (Int.negSucc m) rest hrest
          simp only [intChars] at hnum ⊢
          simp only [List.cons_append] at hnum ⊢
          rw [parseJ_num f '-' _ (by decide) (by decide) (by decide) (by decide)
            (by decide) (by decide)]
          exact hnum
      | str s =>
        simp only [stringifyChars]
        unfold quoteChars
        simp only [List.cons_append, List.append_assoc, List.singleton_append, List.nil_append]
        rw [parseJ_str, parseStrAux_esc s.data [] rest]
        rfl
      | arr xs =>
        simp only [stringifyChars]
        simp only [List.cons_append, List.append_assoc, List.singleton_append, List.nil_append]
        rw [parseJ_arr, ihE xs rest (by simp [fuelJ] at hf; omega)]
        rfl
      | obj fs =>
        simp only [stringifyChars]
        simp only [List.cons_append, List.append_assoc, List.singleton_append, List.nil_append]
        rw [parseJ_obj, ihF fs rest (by simp [fuelJ] at hf; omega)]
        rfl
    · -- parseElems on serialized elements followed by the closing bracket
      intro xs rest hf
      match xs with
      | [] => simpa [elemsChars] using parseElems_close f rest
      | [x] =>
        simp only [elemsChars]
        obtain ⟨c, cs, hx, hcne, _⟩ := stringify_head x
        have hxf : fuelJ x ≤ f := by
          simp [fuelElems] at hf
          omega
        have hpj := ihJ x (']' :: rest) hxf (by simp [noDigitHead])
        rw [hx] at hpj ⊢
        simp only [List.cons_append] at hpj ⊢
        exact parseElems_cons_close f c _ rest x hcne hpj
      | x :: x2 :: xs' =>
        simp only [elemsChars]
        obtain ⟨c, cs, hx, hcne, _⟩ := stringify_head x
        have hxf : fuelJ x ≤ f := by
          simp [fuelElems] at hf
          omega
        have hids : fuelElems (x2 :: xs') ≤ f := by
          simp [fuelElems] at hf ⊢
          omega
        have hpj := ihJ x (',' :: (elemsChars (x2 :: xs') ++ ']' :: rest)) hxf
          (by simp [noDigitHead])
        rw [hx] at hpj
        simp only [List.cons_append] at hpj
        rw [hx]
        simp only [List.cons_append, List.append_assoc]
        rw [parseElems_cons_comma f c _ _ x hcne hpj, ihE (x2 :: xs') rest hids]
        rfl
    · -- parseFields on serialized members followed by the closing brace
      intro fs rest hf
      match fs with
      | [] => simpa [fieldsChars] using parseFields_close f rest
      | [(k, v)] =>
        simp only [fieldsChars]
        have hvf : fuelJ v ≤ f := by
          simp [fuelFields] at hf
          omega
        have hpv := ihJ v ('\x7d' :: rest) hvf (by simp [noDigitHead])
        have hpk := parseStrAux_esc k.data [] (':' :: (stringifyChars v ++ '\x7d' :: rest))
        simp only [List.nil_append] at hpk
        unfold quoteChars
        simp only [List.cons_append, List.append_assoc, List.singleton_append, List.nil_append]
        rw [parseFields_cons_close f _ _ rest k.data v hpk hpv]
      | (k, v) :: f2 :: fs' =>
        simp only [fieldsChars]
        have hvf : fuelJ v ≤ f := by
          simp [fuelFields] at hf
          omega
        have hids : fuelFields (f2 :: fs') ≤ f := by
          cases f2 with
          | mk k2 v2 =>
            simp [fuelFields] at hf ⊢
            omega
        have hpv := ihJ v (',' :: (fieldsChars (f2 :: fs') ++ '\x7d' :: rest)) hvf
          (by simp [noDigitHead])
        have hpk := parseStrAux_esc k.data []
          (':' :: (stringifyChars v ++ ',' :: (fieldsChars (f2 :: fs') ++ '\x7d' :: rest)))
        simp only [List.nil_append] at hpk
        unfold quoteChars
        simp only [List.cons_append, List.append_assoc, List.singleton_append, List.nil_append] at hpv ⊢
        rw [parseFields_cons_comma f _ _ _ k.data v hpk hpv, ihF (f2 :: fs') rest hids]
        rfl

-- # Enough fuel for serialized values, and stringify emits no newline

mutual
theorem bridgeJ : (v : JsonValue) → fuelJ v ≤ (stringifyChars v).length + 1
  | .null => by simp [fuelJ, stringifyChars]
  | .bool b => by cases b <;> simp [fuelJ, stringifyChars]
  | .num n => by simp [fuelJ]
  | .str s => by simp [fuelJ]
  | .arr xs => by
    have h := bridgeE xs
    simp only [fuelJ, stringifyChars, List.length_cons, List.length_append]
    simp at h ⊢
    omega
  | .obj fs => by
    have h := bridgeF fs
    simp only [fuelJ, stringifyChars, List.length_cons, List.length_append]
    simp at h ⊢
    omega
theorem bridgeE : (xs : List JsonValue) → fuelElems xs ≤ (elemsChars xs).length + 2
  | [] => by simp [fuelElems, elemsChars]
  | [x] => by
    have h := bridgeJ x
    simp only [fuelElems, elemsChars, fuelElems]
    simp [fuelElems] at h ⊢
    omega
  | x :: x2 :: xs' => by
    have h1 := bridgeJ x
    have h2 := bridgeE (x2 :: xs')
    obtain ⟨c0, cs0, hx0, _, _⟩ := stringify_head x
    have hlen : 1 ≤ (stringifyChars x).length := by simp [hx0]
    have hec : elemsChars (x :: x2 :: xs') = stringifyChars x ++ ',' :: elemsChars (x2 :: xs') := by
      rw [elemsChars]
      simp
    rw [fuelElems, hec]
    simp only [List.length_append, List.length_cons]
    have hmax : max (fuelJ x) (fuelElems (x2 :: xs')) ≤
        (stringifyChars x).length + (elemsChars (x2 :: xs')).length + 1 :=
      Nat.max_le.mpr ⟨by omega, by omega⟩
    omega
theorem bridgeF : (fs : List (String × JsonValue)) → fuelFields fs ≤ (fieldsChars fs).length + 2
  | [] => by simp [fuelFields, fieldsChars]
  | [(k, v)] => by
    have h := bridgeJ v
    simp only [fuelFields, fieldsChars, List.length_append, List.length_cons]
    simp [fuelFields] at h ⊢
    omega
  | (k, v) :: f2 :: fs' => by
    have h1 := bridgeJ v
    have h2 := bridgeF (f2 :: fs')
    have hfc : fieldsChars ((k, v) :: f2 :: fs') =
        quoteChars k ++ ':' :: stringifyChars v ++ ',' :: fieldsChars (f2 :: fs') := by
      rw [fieldsChars]
      simp
    rw [fuelFields, hfc]
    simp only [List.length_append, List.length_cons]
    have hmax : max (fuelJ v) (fuelFields (f2 :: fs')) ≤
        (quoteChars k).length + (stringifyChars v).length + (fieldsChars (f2 :: fs')).length + 2 :=
      Nat.max_le.mpr ⟨by omega, by omega⟩
    omega
end

theorem digitChar16_ne_nl (d : Nat) (h : d < 16) : Nat.digitChar d ≠ '\n' := by
  interval_cases d <;> decide

theorem escChar_no_nl (c : Char) : '\n' ∉ escChar c := by
  unfold escChar
  split_ifs with h1 h2 h3 h4 h5 h6 h7 h8
  · simp
  · simp
  · simp
  · simp
  · simp
  · simp
  · simp
  · intro hm
    simp only [List.mem_cons, List.not_mem_nil, or_false] at hm
    rcases hm with h | h | h | h | h | h
    · exact absurd h.symm (by decide)
    · exact absurd h.symm (by decide)
    · exact absurd h.symm (by decide)
    · exact absurd h.symm (by decide)
    · exact absurd h.symm (digitChar16_ne_nl (c.toNat / 16) (by omega))
    · exact absurd h.symm (digitChar16_ne_nl (c.toNat % 16) (by omega))
  · intro hm
    simp only [List.mem_singleton] at hm
    subst hm
    exact h8 (by decide)

theorem quoteChars_no_nl (s : String) : '\n' ∉ quoteChars s := by
  unfold quoteChars
  intro hm
  rcases List.mem_append.mp hm with h | h
  · rcases List.mem_cons.mp h with h2 | h2
    · exact absurd h2 (by decide)
    · rw [List.mem_flatten] at h2
      obtain ⟨l, hl, hml⟩ := h2
      simp only [List.mem_map] at hl
      obtain ⟨c, _, rfl⟩ := hl
      exact escChar_no_nl c hml
  · simp at h

theorem intChars_no_nl (n : Int) : '\n' ∉ intChars n := by
  cases n with
  | ofNat m => exact natChars_no_nl m
  | negSucc m =>
    intro hm
    rcases List.mem_cons.mp hm with h | h
    · exact absurd h (by decide)
    · exact natChars_no_nl (m + 1) h

mutual
theorem stringifyChars_no_nl : (v : JsonValue) → '\n' ∉ stringifyChars v
  | .null => by simp [stringifyChars]
  | .bool b => by cases b <;> simp [stringifyChars]
  | .num n => by
    rw [show stringifyChars (.num n) = intChars n by rw [stringifyChars]]
    exact intChars_no_nl n
  | .str s => by
    rw [show stringifyChars (.str s) = quoteChars s by rw [stringifyChars]]
    exact quoteChars_no_nl s
  | .arr xs => by
    have h := elemsChars_no_nl xs
    rw [show stringifyChars (.arr xs) = '[' :: elemsChars xs ++ [']'] by rw [stringifyChars]]
    intro hm
    rcases List.mem_append.mp hm with hx | hx
    · rcases List.mem_cons.mp hx with hy | hy
      · exact absurd hy (by decide)
      · exact h hy
    · simp at hx
  | .obj fs => by
    have h := fieldsChars_no_nl fs
    rw [show stringifyChars (.obj fs) = '\x7b' :: fieldsChars fs ++ ['\x7d'] by rw [stringifyChars]]
    intro hm
    rcases List.mem_append.mp hm with hx | hx
    · rcases List.mem_cons.mp hx with hy | hy
      · exact absurd hy (by decide)
      · exact h hy
    · simp at hx
theorem elemsChars_no_nl : (xs : List JsonValue) → '\n' ∉ elemsChars xs
  | [] => by simp [elemsChars]
  | [x] => by
    have h := stringifyChars_no_nl x
    rw [show elemsChars [x] = stringifyChars x by rw [elemsChars]]
    exact h
  | x :: x2 :: xs' => by
    have h1 := stringifyChars_no_nl x
    have h2 := elemsChars_no_nl (x2 :: xs')
    have hec : elemsChars (x :: x2 :: xs') = stringifyChars x ++ ',' :: elemsChars (x2 :: xs') := by
      rw [elemsChars]
      simp
    rw [hec]
    intro hm
    rcases List.mem_append.mp hm with hx | hx
    · exact h1 hx
    · rcases List.mem_cons.mp hx with hy | hy
      · exact absurd hy (by decide)
      · exact h2 hy
theorem fieldsChars_no_nl : (fs : List (String × JsonValue)) → '\n' ∉ fieldsChars fs
  | [] => by simp [fieldsChars]
  | [(k, v)] => by
    have h1 := quoteChars_no_nl k
    have h2 := stringifyChars_no_nl v
    rw [show fieldsChars [(k, v)] = quoteChars k ++ ':' :: stringifyChars v by rw [fieldsChars]]
    intro hm
    rcases List.mem_append.mp hm with hx | hx
    · exact h1 hx
    · rcases List.mem_cons.mp hx with hy | hy
      · exact absurd hy (by decide)
      · exact h2 hy
  | (k, v) :: f2 :: fs' => by
    have h1 := quoteChars_no_nl k
    have h2 := stringifyChars_no_nl v
    have h3 := fieldsChars_no_nl (f2 :: fs')
    have hfc : fieldsChars ((k, v) :: f2 :: fs') =
        quoteChars k ++ ':' :: stringifyChars v ++ ',' :: fieldsChars (f2 :: fs') := by
      rw [fieldsChars]
      simp
    rw [hfc]
    intro hm
    rcases List.mem_append.mp hm with hx | hx
    · rcases List.mem_append.mp hx with hy | hy
      · exact h1 hy
      · rcases List.mem_cons.mp hy with hz | hz
        · exact absurd hz (by decide)
        · exact h2 hz
    · rcases List.mem_cons.mp hx with hz | hz
      · exact absurd hz (by decide)
      · exact h3 hz
end

theorem stringifyStr_noNlB (v : JsonValue) : noNlB (stringifyStr v) = true := by
  rw [noNlB_iff]
  exact stringifyChars_no_nl v

-- # Top-level parse of a serialized value

theorem parseTop_stringify (v : JsonValue) : parseTop (stringifyChars v) = some v := by
  unfold parseTop
  have hf : fuelJ v ≤ (stringifyChars v).length + 1 := bridgeJ v
  have h := (parseRT ((stringifyChars v).length + 1)).1 v [] hf (by simp [noDigitHead])
  rw [List.append_nil] at h
  rw [h]

-- # Frame-level infrastructure

theorem noNlB_append (a b : String) : noNlB (a ++ b) = (noNlB a && noNlB b) := by
  unfold noNlB
  rw [String.data_append, List.all_append]

theorem noNlB_mk (l : List Char) : noNlB (String.mk l) = l.all (fun c => !(c == '\n')) := rfl

theorem natCharsStr_noNlB (r : Nat) : noNlB (String.mk (natChars r)) = true := by
  rw [noNlB_mk, List.all_eq_true]
  intro c hc
  simp only [Bool.not_eq_true', beq_eq_false_iff_ne]
  intro heq
  exact natChars_no_nl r (heq ▸ hc)

theorem append_ne_empty_left (a b : String) (h : a ≠ "") : a ++ b ≠ "" := by
  intro he
  have hd : (a ++ b).data = [] := by rw [he]
  rw [String.data_append] at hd
  obtain ⟨ha, _⟩ := List.append_eq_nil.mp hd
  apply h
  cases a with
  | mk d => simp at ha; rw [ha]

theorem hasPfx_retry_of_head (c : Char) (h : c ≠ 'r') (cs : List Char) :
    hasPfx "retry: ".data (c :: cs) = false := by
  have h1 : "retry: ".data = 'r' :: "etry: ".data := rfl
  rw [h1]
  exact hasPfx_ne_head 'r' c _ _ h

theorem hasPfx_retry_lit (lit : String) (c : Char) (rest : List Char) (s : String)
    (hlit : lit.data = c :: rest) (h : c ≠ 'r') :
    hasPfx "retry: ".data (lit ++ s).data = false := by
  rw [String.data_append, hlit, List.cons_append]
  exact hasPfx_retry_of_head c h _

theorem hasPfx_retry_self (s : String) :
    hasPfx "retry: ".data ("retry: " ++ s).data = true := by
  rw [String.data_append]
  exact hasPfx_append_self _ _

theorem frameShapeOk_parts (core : List String) (h : ∀ l ∈ core, l ≠ "") :
    frameShapeOk (core ++ ["", ""]) = true := by
  unfold frameShapeOk
  rw [List.reverse_append]
  show (match ("" : String) :: "" :: core.reverse with
    | "" :: "" :: content => content.all (fun l => !(l == ""))
    | _ => false) = true
  simp only [List.all_eq_true, Bool.not_eq_true', beq_eq_false_iff_ne]
  intro l hl
  exact h l (List.mem_reverse.mp hl)

theorem sendEventParts_eq_core (et : String) (dl : List String)
    (o : HonoSSE.DatastarEventOptions) :
    HonoSSE.sendEventParts et dl o =
      (["event: " ++ et]
        ++ (match o.eventId with
          | some i => if i ≠ "" then ["id: " ++ i] else []
          | none => [])
        ++ (match o.retryDuration with
          | some r => if r ≠ 0 ∧ r ≠ HonoSSE.DEFAULT_RETRY_DURATION then
              ["retry: " ++ String.mk (natChars r)] else []
          | none => [])
        ++ dl.map (fun line => "data: " ++ line)) ++ ["", ""] := by
  unfold HonoSSE.sendEventParts
  simp [List.append_assoc]

theorem sendEventParts_core_ne_empty (et : String) (dl : List String)
    (o : HonoSSE.DatastarEventOptions) :
    ∀ l ∈ (["event: " ++ et]
        ++ (match o.eventId with
          | some i => if i ≠ "" then ["id: " ++ i] else []
          | none => [])
        ++ (match o.retryDuration with
          | some r => if r ≠ 0 ∧ r ≠ HonoSSE.DEFAULT_RETRY_DURATION then
              ["retry: " ++ String.mk (natChars r)] else []
          | none => [])
        ++ dl.map (fun line => "data: " ++ line)), l ≠ "" := by
  intro l hl
  rcases List.mem_append.mp hl with h1 | hD
  · rcases List.mem_append.mp h1 with h2 | hR
    · rcases List.mem_append.mp h2 with hE | hI
      · rw [List.mem_singleton] at hE
        subst hE
        exact append_ne_empty_left _ _ (by decide)
      · match hoe : o.eventId with
        | none => rw [hoe] at hI; simp at hI
        | some i =>
          rw [hoe] at hI
          simp only [ne_eq] at hI
          by_cases hi : i = ""
          · simp [hi] at hI
          · rw [if_pos hi] at hI
            rw [List.mem_singleton] at hI
            subst hI
            exact append_ne_empty_left _ _ (by decide)
    · match hor : o.retryDuration with
      | none => rw [hor] at hR; simp at hR
      | some r =>
        rw [hor] at hR
        simp only [ne_eq] at hR
        by_cases hr : r ≠ 0 ∧ r ≠ HonoSSE.DEFAULT_RETRY_DURATION
        · rw [if_pos hr] at hR
          rw [List.mem_singleton] at hR
          subst hR
          exact append_ne_empty_left _ _ (by decide)
        · simp [hr] at hR
  · rw [List.mem_map] at hD
    obtain ⟨line, _, rfl⟩ := hD
    exact append_ne_empty_left _ _ (by decide)

theorem sendEventParts_all_clean (et : String) (dl : List String)
    (o : HonoSSE.DatastarEventOptions) (het : noNlB et = true)
    (hdl : ∀ l ∈ dl, noNlB l = true) (hid : optClean o.eventId = true) :
    ∀ p ∈ HonoSSE.sendEventParts et dl o, noNlB p = true := by
  intro p hp
  rw [sendEventParts_eq_core] at hp
  rcases List.mem_append.mp hp with h1 | hT
  · rcases List.mem_append.mp h1 with h2 | hD
    · rcases List.mem_append.mp h2 with h3 | hR
      · rcases List.mem_append.mp h3 with hE | hI
        · rw [List.mem_singleton] at hE
          subst hE
          rw [noNlB_append, het, Bool.and_true]
          decide
        · match hoe : o.eventId with
          | none => rw [hoe] at hI; simp at hI
          | some i =>
            rw [hoe] at hI
            simp only [ne_eq] at hI
            by_cases hi : i = ""
            · simp [hi] at hI
            · rw [if_pos hi] at hI
              rw [List.mem_singleton] at hI
              subst hI
              rw [noNlB_append]
              have : noNlB i = true := by
                rw [hoe] at hid
                simpa [optClean] using hid
              rw [this, Bool.and_true]
              decide
      · match hor : o.retryDuration with
        | none => rw [hor] at hR; simp at hR
        | some r =>
          rw [hor] at hR
          simp only [ne_eq] at hR
          by_cases hr : r ≠ 0 ∧ r ≠ HonoSSE.DEFAULT_RETRY_DURATION
          · rw [if_pos hr] at hR
            rw [List.mem_singleton] at hR
            subst hR
            rw [noNlB_append, natCharsStr_noNlB, Bool.and_true]
            decide
          · simp [hr] at hR
    · rw [List.mem_map] at hD
      obtain ⟨line, hline, rfl⟩ := hD
      rw [noNlB_append, hdl line hline, Bool.and_true]
      decide
  · rcases List.mem_cons.mp hT with h | h
    · subst h; decide
    · rw [List.mem_singleton] at h
      subst h
      decide

theorem sendEvent_lines (et : String) (dl : List String) (o : HonoSSE.DatastarEventOptions)
    (het : noNlB et = true) (hdl : ∀ l ∈ dl, noNlB l = true)
    (hid : optClean o.eventId = true) :
    splitNlStr (HonoSSE.sendEvent et dl o) = HonoSSE.sendEventParts et dl o := by
  apply splitNlStr_joinParts
  · rw [sendEventParts_eq_core]
    simp
  · exact sendEventParts_all_clean et dl o het hdl hid

theorem sendEvent_frameShapeOk (et : String) (dl : List String)
    (o : HonoSSE.DatastarEventOptions) (het : noNlB et = true)
    (hdl : ∀ l ∈ dl, noNlB l = true) (hid : optClean o.eventId = true) :
    frameShapeOk (splitNlStr (HonoSSE.sendEvent et dl o)) = true := by
  rw [sendEvent_lines et dl o het hdl hid, sendEventParts_eq_core]
  exact frameShapeOk_parts _ (sendEventParts_core_ne_empty et dl o)

theorem retryLinePresent_sendEvent (et : String) (dl : List String)
    (o : HonoSSE.DatastarEventOptions) (het : noNlB et = true)
    (hdl : ∀ l ∈ dl, noNlB l = true) (hid : optClean o.eventId = true) :
    retryLinePresent (HonoSSE.sendEvent et dl o) =
      (match o.retryDuration with
        | some r => !(r == 0) && !(r == 1000)
        | none => false) := by
  unfold retryLinePresent
  rw [sendEvent_lines et dl o het hdl hid, sendEventParts_eq_core]
  have hev : (List.any ["event: " ++ et] (fun l => hasPfx "retry: ".data l.data)) = false := by
    simp only [List.any_cons, List.any_nil, Bool.or_false]
    exact hasPfx_retry_lit "event: " 'e' "vent: ".data et rfl (by decide)
  have hid2 : (List.any (match o.eventId with
      | some i => if i ≠ "" then ["id: " ++ i] else []
      | none => []) (fun l => hasPfx "retry: ".data l.data)) = false := by
    cases hoe : o.eventId with
    | none => rfl
    | some i =>
      simp only [ne_eq]
      by_cases hi : i = ""
      · simp [hi]
      · rw [if_pos hi]
        simp only [List.any_cons, List.any_nil, Bool.or_false]
        exact hasPfx_retry_lit "id: " 'i' "d: ".data i rfl (by decide)
  have hdata : (List.any (dl.map (fun line => "data: " ++ line))
      (fun l => hasPfx "retry: ".data l.data)) = false := by
    rw [List.any_map, List.any_eq_false]
    intro x hx
    simp only [Function.comp]
    rw [hasPfx_retry_lit "data: " 'd' "ata: ".data x rfl (by decide)]
    simp
  have htail : (List.any ["", ""] (fun l => hasPfx "retry: ".data l.data)) = false := by decide
  have hretry : (List.any (match o.retryDuration with
      | some r => if r ≠ 0 ∧ r ≠ HonoSSE.DEFAULT_RETRY_DURATION then
          ["retry: " ++ String.mk (natChars r)] else []
      | none => []) (fun l => hasPfx "retry: ".data l.data)) =
      (match o.retryDuration with
        | some r => !(r == 0) && !(r == 1000)
        | none => false) := by
    cases hor : o.retryDuration with
    | none => rfl
    | some r =>
      simp only [ne_eq]
      by_cases hr : r ≠ 0 ∧ r ≠ HonoSSE.DEFAULT_RETRY_DURATION
      · simp only [ne_eq] at hr
        rw [if_pos hr]
        simp only [List.any_cons, List.any_nil, Bool.or_false]
        rw [hasPfx_retry_self]
        have h0 : ¬(r == 0) = true := by simp [hr.1]
        have h1 : ¬(r == 1000) = true := by
          have := hr.2
          simp [HonoSSE.DEFAULT_RETRY_DURATION] at this
          simp [this]
        simp [Bool.not_eq_true] at h0 h1
        simp [h0, h1]
      · simp only [ne_eq] at hr
        rw [if_neg hr]
        simp only [List.any_nil]
        rw [Decidable.not_and_iff_or_not] at hr
        rcases hr with h | h
        · simp only [ne_eq, Decidable.not_not] at h
          simp [h]
        · simp only [ne_eq, Decidable.not_not, HonoSSE.DEFAULT_RETRY_DURATION] at h
          simp [h]
  simp only [List.any_append]
  rw [hev, hid2, hdata, htail, hretry]
  cases o.retryDuration <;> simp

-- # SSEG mapper infrastructure

theorem splitNl_no_nl : ∀ cs : List Char, ∀ l ∈ splitNl cs, '\n' ∉ l := by
  intro cs
  induction cs with
  | nil => intro l hl; simp [splitNl] at hl; simp [hl]
  | cons c cs ih =>
    intro l hl
    simp only [splitNl] at hl
    cases hs : splitNl cs with
    | nil => exact absurd hs (splitNl_ne_nil cs)
    | cons p ps =>
      rw [hs] at hl
      have hl2 : l ∈ if c = '\n' then [] :: p :: ps else (c :: p) :: ps := hl
      clear hl
      by_cases hc : c = '\n'
      · rw [if_pos hc] at hl2
        rcases List.mem_cons.mp hl2 with h | h
        · simp [h]
        · exact ih l (hs ▸ h)
      · rw [if_neg hc] at hl2
        rcases List.mem_cons.mp hl2 with h | h
        · subst h
          intro hm
          rcases List.mem_cons.mp hm with h2 | h2
          · exact hc h2.symm
          · exact ih p (hs ▸ List.mem_cons_self p ps) h2
        · exact ih l (hs ▸ List.mem_cons_of_mem p h)

theorem splitNlStr_clean (s : String) : ∀ p ∈ splitNlStr s, noNlB p = true := by
  intro p hp
  unfold splitNlStr at hp
  rw [List.mem_map] at hp
  obtain ⟨l, hl, rfl⟩ := hp
  rw [noNlB_mk, List.all_eq_true]
  intro c hc
  simp only [Bool.not_eq_true', beq_eq_false_iff_ne]
  intro heq
  exact splitNl_no_nl s.data l hl (heq ▸ hc)

theorem splitNlStr_ne_nil (s : String) : splitNlStr s ≠ [] := by
  unfold splitNlStr
  simp [splitNl_ne_nil]

theorem prefixDataLines_clean (pfx : String) (data : String) (hp : noNlB pfx = true) :
    ∀ l ∈ SSEG.prefixDataLines pfx data, noNlB l = true := by
  intro l hl
  unfold SSEG.prefixDataLines at hl
  rw [List.mem_map] at hl
  obtain ⟨piece, hpiece, rfl⟩ := hl
  rw [noNlB_append, noNlB_append, hp, splitNlStr_clean data piece hpiece]
  decide

theorem prefixDataLines_ne_nil (pfx data : String) : SSEG.prefixDataLines pfx data ≠ [] := by
  unfold SSEG.prefixDataLines
  simp [splitNlStr_ne_nil]

theorem prefixDataLines_of_clean (pfx data : String) (h : noNlB data = true) :
    SSEG.prefixDataLines pfx data = [pfx ++ " " ++ data] := by
  unfold SSEG.prefixDataLines splitNlStr
  rw [splitNl_of_no_nl data.data ((noNlB_iff data).mp h)]
  rfl

theorem modeStr_clean (m : SSEG.ElementPatchMode) : noNlB (SSEG.modeStr m) = true := by
  cases m <;> decide

theorem clientDecode_signals (v : JsonValue) :
    clientDecodeLine ("signals " ++ stringifyStr v) = some v := by
  unfold clientDecodeLine
  rw [String.data_append, if_pos (hasPfx_append_self _ _)]
  have h8 : ("signals ".data).length = 8 := rfl
  rw [← h8, List.drop_left]
  exact parseTop_stringify v

-- # Equivalence of the two sendEvent variants on non-empty data

theorem joinParts_cons_of_ne (p : String) (ps : List String) (h : ps ≠ []) :
    joinParts (p :: ps) = p ++ "\n" ++ joinParts ps := by
  cases ps with
  | nil => exact absurd rfl h
  | cons q qs =>
    rw [joinParts]
    simp

theorem joinParts_append_blanks : ∀ D : List String, D ≠ [] →
    joinParts (D ++ ["", ""]) = joinParts D ++ "\n\n"
  | [], h => absurd rfl h
  | [d], _ => by
    rw [List.singleton_append, joinParts_cons_of_ne d ["", ""] (by simp)]
    rw [show joinParts ["", ""] = "\n" by decide]
    rw [show joinParts [d] = d from rfl]
    rw [String.append_assoc]
    rw [show ("\n" ++ "\n" : String) = "\n\n" by decide]
  | d :: d2 :: D', _ => by
    have ih := joinParts_append_blanks (d2 :: D') (by simp)
    rw [List.cons_append, joinParts_cons_of_ne d _ (by simp),
      joinParts_cons_of_ne d (d2 :: D') (by simp), ih, ← String.append_assoc]

theorem sendEventV2_eq_sendEvent (et : String) (dl : List String)
    (o : HonoSSE.DatastarEventOptions) (hdl : dl ≠ []) :
    HonoSSE.sendEventV2 et dl o = HonoSSE.sendEvent et dl o := by
  obtain ⟨oe, orr⟩ := o
  have hmap : dl.map (fun line => "data: " ++ line) ≠ [] := by simp [hdl]
  unfold HonoSSE.sendEventV2 HonoSSE.sendEvent HonoSSE.sendEventParts
  simp only [HonoSSE.DEFAULT_RETRY_DURATION, ne_eq]
  cases oe with
  | none =>
    cases orr with
    | none =>
      simp only [List.singleton_append, List.nil_append, List.cons_append]
      repeat rw [joinParts_cons_of_ne _ _ (by simp [hmap])]
      rw [joinParts_append_blanks _ hmap]
      simp [String.append_assoc, String.append_empty]
    | some r =>
      by_cases hr : ¬r = 0 ∧ ¬r = 1000
      · simp only [List.singleton_append, List.nil_append, List.cons_append]
        rw [if_pos hr, if_pos hr]
        simp only [List.singleton_append, List.nil_append, List.cons_append]
        repeat rw [joinParts_cons_of_ne _ _ (by simp [hmap])]
        rw [joinParts_append_blanks _ hmap]
        simp [String.append_assoc, String.append_empty]
      · simp only [List.singleton_append, List.nil_append, List.cons_append]
        rw [if_neg hr, if_neg hr]
        simp only [List.nil_append]
        repeat rw [joinParts_cons_of_ne _ _ (by simp [hmap])]
        rw [joinParts_append_blanks _ hmap]
        simp [String.append_assoc, String.append_empty]
  | some i =>
    by_cases hi : i = ""
    · subst hi
      simp only [ne_eq, not_true_eq_false, reduceIte]
      cases orr with
      | none =>
        simp only [List.singleton_append, List.nil_append, List.cons_append]
        repeat rw [joinParts_cons_of_ne _ _ (by simp [hmap])]
        rw [joinParts_append_blanks _ hmap]
        simp [String.append_assoc, String.append_empty]
      | some r =>
        by_cases hr : ¬r = 0 ∧ ¬r = 1000
        · simp only [List.singleton_append, List.nil_append, List.cons_append]
          rw [if_pos hr, if_pos hr]
          simp only [List.singleton_append, List.nil_append, List.cons_append]
          repeat rw [joinParts_cons_of_ne _ _ (by simp [hmap])]
          rw [joinParts_append_blanks _ hmap]
          simp [String.append_assoc, String.append_empty]
        · simp only [List.singleton_append, List.nil_append, List.cons_append]
          rw [if_neg hr, if_neg hr]
          simp only [List.nil_append]
          repeat rw [joinParts_cons_of_ne _ _ (by simp [hmap])]
          rw [joinParts_append_blanks _ hmap]
          simp [String.append_assoc, String.append_empty]
    · cases orr with
      | none =>
        simp only [List.singleton_append, List.nil_append, List.cons_append]
        rw [if_pos hi, if_pos hi]
        simp only [List.singleton_append, List.nil_append, List.cons_append]
        repeat rw [joinParts_cons_of_ne _ _ (by simp [hmap])]
        rw [joinParts_append_blanks _ hmap]
        simp [String.append_assoc, String.append_empty]
      | some r =>
        by_cases hr : ¬r = 0 ∧ ¬r = 1000
        · simp only [List.singleton_append, List.nil_append, List.cons_append]
          rw [if_pos hi, if_pos hi, if_pos hr, if_pos hr]
          simp only [List.singleton_append, List.nil_append, List.cons_append]
          repeat rw [joinParts_cons_of_ne _ _ (by simp [hmap])]
          rw [joinParts_append_blanks _ hmap]
          simp [String.append_assoc, String.append_empty]
        · simp only [List.singleton_append, List.nil_append, List.cons_append]
          rw [if_pos hi, if_pos hi, if_neg hr, if_neg hr]
          simp only [List.singleton_append, List.nil_append, List.cons_append]
          repeat rw [joinParts_cons_of_ne _ _ (by simp [hmap])]
          rw [joinParts_append_blanks _ hmap]
          simp [String.append_assoc, String.append_empty]

-- # Helpers for the claim theorems

theorem tryCatchE_exists {α : Type} (body : Except String α)
    (handler : String → Except String α) (hh : ∀ e, ∃ r, handler e = .ok r) :
    ∃ r, tryCatchE body handler = .ok r := by
  cases body with
  | ok a => exact ⟨a, rfl⟩
  | error e => exact hh e

theorem bigStr_length : bigStr.length = 1048577 := by
  rw [show bigStr.length = (List.replicate 1048577 'a').length from rfl, List.length_replicate]

theorem bigStr_ne_empty : bigStr ≠ "" := by
  intro h
  have hlen := bigStr_length
  rw [h] at hlen
  exact absurd hlen (by decide)

theorem parseNum_head_a (rest : List Char) : parseNum ('a' :: rest) = none := by
  simp only [parseNum]
  simp

theorem parseE_eq (s : String) : JsonValue.parseE s =
    (match parseTop s.data with
      | some v => Except.ok v
      | none => Except.error "Unexpected token") := rfl

theorem parseTop_eq (cs : List Char) : parseTop cs =
    (match parseJ (cs.length + 1) cs with
      | some (v, []) => some v
      | _ => none) := rfl

theorem parseE_bigStr : JsonValue.parseE bigStr = Except.error "Unexpected token" := by
  have hd : bigStr.data = 'a' :: List.replicate 1048576 'a' := by
    rw [show bigStr.data = List.replicate 1048577 'a' from rfl,
      show (1048577 : Nat) = 1048576 + 1 by norm_num, List.replicate_succ]
  have hl : bigStr.data.length = 1048576 + 1 := by
    rw [show bigStr.data = List.replicate 1048577 'a' from rfl, List.length_replicate]
  have htop : parseTop bigStr.data = none := by
    rw [parseTop_eq, hl, hd]
    rw [parseJ_num (1048576 + 1) 'a' _ (by decide) (by decide) (by decide) (by decide)
      (by decide) (by decide)]
    rw [parseNum_head_a]
  rw [parseE_eq, htop]

theorem mergeModeStr_clean (m : HonoSSE.MergeMode) : noNlB (HonoSSE.mergeModeStr m) = true := by
  cases m <;> decide

-- # Claim C9

/-- C9: for a GET request that carries no `datastar` query parameter at all,
both cited `readSignals` implementations return exactly
`{success:false, error:"No datastar object in request"}` (the
serverSentEventGenerator one also without invoking the JSON parser). -/
theorem C9_missing_parameter (parse parse2 : String → Except String JsonValue)
    (bodyJson : Except String JsonValue) (bodyText : Except String String) :
    SSEG.readSignals parse "GET" none bodyJson =
        Except.ok (ReadSignalsResponse.failure SSEG.NO_DATASTAR_ERROR, 0) ∧
      HonoSSE.readSignals parse2 "GET" none bodyText =
        Except.ok (ReadSignalsResponse.failure "No datastar object in request") := by
  constructor
  · rfl
  · rfl

-- # Claim C10

/-- C10 counterexample: the hono-sse.ts `readSignals` does not treat a
present-but-empty `datastar` parameter like a missing one: it returns the
error `Datastar param is null`, not `No datastar object in request`. -/
theorem C10_counterexample :
    HonoSSE.readSignals JsonValue.parseE "GET" (some "") (Except.error "") =
        Except.ok (ReadSignalsResponse.failure "Datastar param is null") ∧
      "Datastar param is null" ≠ SSEG.NO_DATASTAR_ERROR := by
  constructor
  · rfl
  · decide

/-- C10 (amended): the serverSentEventGenerator `readSignals` treats an empty
`datastar` parameter exactly like a missing one (falsy check): it returns the
missing-parameter error and never invokes the JSON parser (count 0, for every
parser); the hono-sse.ts variant instead fails with `Datastar param is null`. -/
theorem C10_empty_param (parse : String → Except String JsonValue)
    (bodyJson : Except String JsonValue) :
    SSEG.readSignals parse "GET" (some "") bodyJson =
      Except.ok (ReadSignalsResponse.failure SSEG.NO_DATASTAR_ERROR, 0) := by
  rfl

-- # Claim C2

/-- C2: both cited `readSignals` implementations never throw: for every
method, query parameter, body and parser behaviour (including a throwing
parser and a throwing body read), the outer exception layer is `.ok`, i.e.
every failure is captured into the `{success:false, error}` variant. -/
theorem C2_never_throws (parse : String → Except String JsonValue) (method : String)
    (query params : Option String) (bodyJson : Except String JsonValue)
    (bodyText : Except String String) :
    (∃ r, SSEG.readSignals parse method query bodyJson = .ok r) ∧
      (∃ r, HonoSSE.readSignals parse method params bodyText = .ok r) := by
  constructor
  · unfold SSEG.readSignals
    by_cases hm : method = "GET"
    · rw [if_pos hm]
      match query with
      | none => exact ⟨_, rfl⟩
      | some qs =>
        show ∃ r, (if qs = "" then Except.ok (ReadSignalsResponse.failure SSEG.NO_DATASTAR_ERROR, 0)
          else if qs.length > SSEG.MAX_JSON_SIZE then
            Except.ok (ReadSignalsResponse.failure SSEG.SIZE_ERROR, 0)
          else
            tryCatchE
              (do
                let signals ← parse qs
                pure (ReadSignalsResponse.success signals, 1))
              (fun _ => Except.ok (ReadSignalsResponse.failure SSEG.PARSE_ERROR, 1))) =
          Except.ok r
        by_cases h1 : qs = ""
        · rw [if_pos h1]
          exact ⟨_, rfl⟩
        · rw [if_neg h1]
          by_cases h2 : qs.length > SSEG.MAX_JSON_SIZE
          · rw [if_pos h2]
            exact ⟨_, rfl⟩
          · rw [if_neg h2]
            exact tryCatchE_exists _ _ (fun e => ⟨_, rfl⟩)
    · rw [if_neg hm]
      unfold SSEG.readSignalsFromBody
      exact tryCatchE_exists _ _ (fun e => ⟨_, rfl⟩)
  · unfold HonoSSE.readSignals
    exact tryCatchE_exists _ _ (fun e => ⟨_, rfl⟩)

-- # Claim C1

/-- C1 counterexample: the hono-sse.ts `readSignals` (via
`parseSignalsFromParams`) applies no size limit: on a GET request whose
`datastar` parameter is 1048577 characters long it hands the parameter to
`JSON.parse` and returns that parse outcome, not
`{success:false, error:"Request payload too large"}`. -/
theorem C1_counterexample :
    bigStr.length > SSEG.MAX_JSON_SIZE ∧
      HonoSSE.readSignals JsonValue.parseE "GET" (some bigStr) (Except.error "") =
        Except.ok (ReadSignalsResponse.failure "Unexpected token") := by
  constructor
  · rw [bigStr_length]
    norm_num [SSEG.MAX_JSON_SIZE]
  · have hp : HonoSSE.parseSignalsFromParams JsonValue.parseE (some bigStr) =
        Except.error "Unexpected token" := by
      unfold HonoSSE.parseSignalsFromParams
      simp only [if_neg bigStr_ne_empty]
      rw [parseE_bigStr]
      rfl
    unfold HonoSSE.readSignals
    rw [if_pos rfl, hp]
    rfl

/-- C1 (amended): in the serverSentEventGenerator implementation (which
defines the 1 MiB `MAX_JSON_SIZE`), a GET request whose `datastar` parameter
is longer than 1048576 characters makes `readSignals` return
`{success:false, error:"Request payload too large"}` without ever invoking
the JSON parser (invocation count 0, for every parser); the hono-sse.ts
variant has no size limit and parses the oversized parameter. -/
theorem C1_size_limited (parse : String → Except String JsonValue) (qs : String)
    (bodyJson : Except String JsonValue) (h : qs.length > SSEG.MAX_JSON_SIZE) :
    SSEG.readSignals parse "GET" (some qs) bodyJson =
      Except.ok (ReadSignalsResponse.failure SSEG.SIZE_ERROR, 0) := by
  unfold SSEG.readSignals
  rw [if_pos rfl]
  show (if qs = "" then Except.ok (ReadSignalsResponse.failure SSEG.NO_DATASTAR_ERROR, 0)
    else if qs.length > SSEG.MAX_JSON_SIZE then
      Except.ok (ReadSignalsResponse.failure SSEG.SIZE_ERROR, 0)
    else
      tryCatchE
        (do
          let signals ← parse qs
          pure (ReadSignalsResponse.success signals, 1))
        (fun _ => Except.ok (ReadSignalsResponse.failure SSEG.PARSE_ERROR, 1))) =
    Except.ok (ReadSignalsResponse.failure SSEG.SIZE_ERROR, 0)
  have hne : qs ≠ "" := by
    intro he
    subst he
    exact absurd h (by decide)
  rw [if_neg hne, if_pos h]

/-- C1 witness: the amended theorem applied to a concrete 1048577-character
parameter and the concrete JSON parser model. -/
theorem C1_size_limited_witness :
    SSEG.readSignals JsonValue.parseE "GET" (some bigStr) (Except.error "") =
      Except.ok (ReadSignalsResponse.failure SSEG.SIZE_ERROR, 0) :=
  C1_size_limited JsonValue.parseE bigStr (Except.error "") (by
    rw [bigStr_length]
    norm_num [SSEG.MAX_JSON_SIZE])

-- # Claim C3

/-- C3 counterexample: supplying `retryDuration = 0` — a retry duration that
differs from the protocol default 1000 — emits no `retry:` line, because the
encoder's truthiness check `retryDuration && retryDuration !== 1000` treats 0
as falsy. The claim requires a retry line for every supplied value other
than 1000. -/
theorem C3_counterexample :
    (0 : Nat) ≠ 1000 ∧
      retryLinePresent (HonoSSE.sendEvent "datastar-merge-signals" ["signals x"]
        { eventId := none, retryDuration := some 0 }) = false := by
  constructor
  · decide
  · decide

/-- C3 (amended): for every event type, data lines and options whose strings
contain no newline, the encoded frame contains a `retry: <ms>` line if and
only if a retry duration was supplied, is non-zero (truthy) and differs from
the protocol default 1000. -/
theorem C3_retry_line_iff (et : String) (dl : List String)
    (o : HonoSSE.DatastarEventOptions) (het : noNlB et = true)
    (hdl : ∀ l ∈ dl, noNlB l = true) (hid : optClean o.eventId = true) :
    retryLinePresent (HonoSSE.sendEvent et dl o) =
      (match o.retryDuration with
        | some r => !(r == 0) && !(r == 1000)
        | none => false) :=
  retryLinePresent_sendEvent et dl o het hdl hid

/-- C3 witness: a frame with a supplied non-default retry duration carries a
retry line. -/
theorem C3_retry_line_iff_witness :
    retryLinePresent (HonoSSE.sendEvent "datastar-merge-fragments"
      ["fragments <div>x</div>"] { eventId := some "e1", retryDuration := some 2000 }) =
      true := by
  have h := C3_retry_line_iff "datastar-merge-fragments" ["fragments <div>x</div>"]
    { eventId := some "e1", retryDuration := some 2000 } (by decide)
    (by intro l hl; simp at hl; subst hl; decide) (by decide)
  simpa using h

-- # Claim C5

/-- C5: calling `executeScript` twice with the same options object does not
produce identical messages: `const attributes = options?.attributes ?? []`
aliases the caller's array and `attributes.push('data-effect="el.remove()"')`
mutates it, so the second call sees the attribute already present and appends
it again. Evaluated at the failing input (script `"x"`, shared options with
`attributes: []`). -/
theorem C5_executeScript_mutates_options :
    (SSEG.executeScriptCall "x" { attributes := some [] }).1 ≠
      (SSEG.executeScriptCall "x"
        (SSEG.executeScriptCall "x" { attributes := some [] }).2).1 := by
  decide

-- # Claim C4

/-- C4 counterexample: the hono-sse.ts `executeScript` emits a distinct
`datastar-execute-script` wire event (first line `event:
datastar-execute-script`), it does not route through the patch-elements
operation. -/
theorem C4_counterexample :
    (splitNlStr (HonoSSE.executeScript "console.log(1)" {})).head? =
        some ("event: " ++ HonoSSE.EXECUTE_SCRIPT) ∧
      HonoSSE.EXECUTE_SCRIPT ≠ SSEG.EVENT_PATCH_ELEMENTS := by
  constructor
  · decide
  · decide

/-- C4 (amended): the serverSentEventGenerator `executeScript` emits no
distinct wire event: with autoremoval enabled (the default), it synthesizes
the markup `<script ...attrs>script</script>` with
`data-effect="el.remove()"` appended after the explicit attributes, and
returns exactly the message `patchElements` produces for that markup with
`mode = append` and `selector = "body"`; in particular the resulting event
type is `datastar-patch-elements`. The hono-sse.ts `executeScript` instead
emits a distinct `datastar-execute-script` event. -/
theorem C4_executeScript_derivation (script : String) (o : SSEG.ExecuteScriptOptions)
    (h : o.autoRemove ≠ some false) :
    SSEG.executeScript script o =
      SSEG.patchElements
        ("<script " ++ String.intercalate " " (o.attributes.getD [] ++ [SSEG.AUTO_REMOVE_ATTRIBUTE])
          ++ ">" ++ script ++ "</script>")
        { mode := some .append, selector := some "body", eventId := o.eventId,
          retryDuration := o.retryDuration, useViewTransition := none } ∧
      (SSEG.executeScript script o).event = SSEG.EVENT_PATCH_ELEMENTS := by
  have har : o.autoRemove.getD true = true := by
    match harv : o.autoRemove with
    | none => rfl
    | some true => rfl
    | some false => exact absurd harv h
  have hmain : SSEG.executeScript script o =
      SSEG.patchElements
        ("<script " ++ String.intercalate " " (o.attributes.getD [] ++ [SSEG.AUTO_REMOVE_ATTRIBUTE])
          ++ ">" ++ script ++ "</script>")
        { mode := some .append, selector := some "body", eventId := o.eventId,
          retryDuration := o.retryDuration, useViewTransition := none } := by
    unfold SSEG.executeScript SSEG.executeScriptCall
    rw [har]
    simp only [if_true]
    rw [if_pos (by simp : (o.attributes.getD [] ++ [SSEG.AUTO_REMOVE_ATTRIBUTE]).length > 0)]
    congr 1
  refine ⟨hmain, ?_⟩
  rw [hmain]
  rfl

/-- C4 witness: the derivation at a concrete script with one explicit
attribute and autoremoval defaulted: the autoremove attribute follows the
explicit attribute, and the message is the patch-elements message with
`mode = append`, `selector = "body"`. -/
theorem C4_executeScript_derivation_witness :
    SSEG.executeScript "console.log(1)" { attributes := some ["type=\"module\""] } =
      SSEG.patchElements
        ("<script " ++ String.intercalate " " (["type=\"module\""] ++ [SSEG.AUTO_REMOVE_ATTRIBUTE])
          ++ ">" ++ "console.log(1)" ++ "</script>")
        { mode := some .append, selector := some "body", eventId := none,
          retryDuration := none, useViewTransition := none } ∧
      (SSEG.executeScript "console.log(1)" { attributes := some ["type=\"module\""] }).event =
        SSEG.EVENT_PATCH_ELEMENTS :=
  C4_executeScript_derivation "console.log(1)" { attributes := some ["type=\"module\""] }
    (by decide)

-- # Claim C6

theorem patchElements_data (e : String) (o : SSEG.PatchElementsOptions) :
    (SSEG.patchElements e o).data =
      SSEG.joinDataLines
        ((match o.mode with
          | some m => if m ≠ .outer then ["mode " ++ SSEG.modeStr m] else []
          | none => [])
          ++ (match o.selector with
            | some s => if s ≠ "" then ["selector " ++ s] else []
            | none => [])
          ++ (if o.useViewTransition = some true then ["useViewTransition true"] else [])
          ++ SSEG.prefixDataLines "elements" e) := rfl

/-- C6: for every PatchElementsIntent whose selector contains no newline, the
data lines of the emitted message are, in order, the control lines — `mode`
only when supplied and different from the default `outer`, `selector` when
supplied and non-empty, `useViewTransition` when strictly true — followed by
the `elements `-prefixed payload lines; and in particular
`elements="<div>x</div>"`, `mode=append`, `selector="body"` yields exactly
`mode append`, `selector body`, `elements <div>x</div>`. -/
theorem C6_patchElements_line_order :
    (∀ (elements : String) (o : SSEG.PatchElementsOptions), optClean o.selector = true →
      splitNlStr (SSEG.patchElements elements o).data =
        (match o.mode with
          | some m => if m ≠ .outer then ["mode " ++ SSEG.modeStr m] else []
          | none => [])
          ++ (match o.selector with
            | some s => if s ≠ "" then ["selector " ++ s] else []
            | none => [])
          ++ (if o.useViewTransition = some true then ["useViewTransition true"] else [])
          ++ SSEG.prefixDataLines "elements" elements) ∧
      splitNlStr (SSEG.patchElements "<div>x</div>"
        { mode := some .append, selector := some "body" }).data =
        ["mode append", "selector body", "elements <div>x</div>"] := by
  constructor
  · intro elements o hsel
    rw [patchElements_data]
    unfold SSEG.joinDataLines
    apply splitNlStr_joinParts
    · intro he
      have h2 := List.append_eq_nil.mp he
      exact prefixDataLines_ne_nil "elements" elements h2.2
    · intro p hp
      rcases List.mem_append.mp hp with h1 | hP
      · rcases List.mem_append.mp h1 with h2 | hV
        · rcases List.mem_append.mp h2 with hM | hS
          · match hm : o.mode with
            | none => rw [hm] at hM; simp at hM
            | some m =>
              rw [hm] at hM
              simp only [ne_eq] at hM
              by_cases hmo : m = SSEG.ElementPatchMode.outer
              · simp [hmo] at hM
              · rw [if_pos hmo] at hM
                rw [List.mem_singleton] at hM
                subst hM
                rw [noNlB_append, modeStr_clean, Bool.and_true]
                decide
          · match hs : o.selector with
            | none => rw [hs] at hS; simp at hS
            | some sel =>
              rw [hs] at hS
              simp only [ne_eq] at hS
              by_cases hse : sel = ""
              · simp [hse] at hS
              · rw [if_pos hse] at hS
                rw [List.mem_singleton] at hS
                subst hS
                rw [noNlB_append]
                have hc : noNlB sel = true := by
                  rw [hs] at hsel
                  simpa [optClean] using hsel
                rw [hc, Bool.and_true]
                decide
        · by_cases hv : o.useViewTransition = some true
          · rw [if_pos hv] at hV
            rw [List.mem_singleton] at hV
            subst hV
            decide
          · rw [if_neg hv] at hV
            simp at hV
      · exact prefixDataLines_clean "elements" elements (by decide) p hP
  · decide

/-- C6 witness: the general statement applied to concrete inputs with all
three control options supplied. -/
theorem C6_patchElements_line_order_witness :
    splitNlStr (SSEG.patchElements "<p>hi</p>"
      { mode := some .prepend, selector := some "#main",
        useViewTransition := some true }).data =
      ["mode prepend", "selector #main", "useViewTransition true", "elements <p>hi</p>"] :=
  C6_patchElements_line_order.1 "<p>hi</p>"
    { mode := some .prepend, selector := some "#main", useViewTransition := some true }
    (by decide)

-- # Claim C7

theorem patchSignals_data (v : JsonValue) (o : SSEG.PatchSignalsOptions) :
    (SSEG.patchSignals v o).data =
      SSEG.joinDataLines
        ((if o.onlyIfMissing = some true then ["onlyIfMissing true"] else [])
          ++ SSEG.prefixDataLines "signals" (stringifyStr v)) := rfl

theorem splitNlStr_single (s : String) (h : noNlB s = true) : splitNlStr s = [s] := by
  unfold splitNlStr
  rw [splitNl_of_no_nl s.data ((noNlB_iff s).mp h)]
  rfl

/-- C7: for every JSON value whose serialization contains no newline,
encoding a patch-signals intent with no options produces exactly one data
line, `signals ` followed by the serialization; and the compliant client's
decode — strip the `signals ` prefix and parse the JSON — recovers the value
(round trip). -/
theorem C7_signals_roundtrip (v : JsonValue) (h : '\n' ∉ stringifyChars v) :
    splitNlStr (SSEG.patchSignals v {}).data = ["signals " ++ stringifyStr v] ∧
      clientDecodeLine ("signals " ++ stringifyStr v) = some v := by
  have hnl : noNlB (stringifyStr v) = true := by
    rw [noNlB_iff]
    exact h
  constructor
  · rw [patchSignals_data]
    show splitNlStr (SSEG.joinDataLines
      ([] ++ SSEG.prefixDataLines "signals" (stringifyStr v))) = _
    rw [List.nil_append, prefixDataLines_of_clean "signals" (stringifyStr v) hnl]
    rw [show SSEG.joinDataLines ["signals" ++ " " ++ stringifyStr v] =
      "signals" ++ " " ++ stringifyStr v from rfl]
    rw [show ("signals" ++ " " : String) = "signals " by decide]
    apply splitNlStr_single
    rw [noNlB_append, hnl, Bool.and_true]
    decide
  · exact clientDecode_signals v

/-- C7 witness: the round trip at the repository's own signals shape
`\x7b"shape":"heart"\x7d`. -/
theorem C7_signals_roundtrip_witness :
    splitNlStr (SSEG.patchSignals (JsonValue.obj [("shape", JsonValue.str "heart")]) {}).data =
        ["signals " ++ stringifyStr (JsonValue.obj [("shape", JsonValue.str "heart")])] ∧
      clientDecodeLine
        ("signals " ++ stringifyStr (JsonValue.obj [("shape", JsonValue.str "heart")])) =
        some (JsonValue.obj [("shape", JsonValue.str "heart")]) :=
  C7_signals_roundtrip (JsonValue.obj [("shape", JsonValue.str "heart")])
    (stringifyChars_no_nl (JsonValue.obj [("shape", JsonValue.str "heart")]))

-- # Claim C8

/-- C8: for every supported intent whose caller-supplied strings contain no
newline, the hono-sse `sendEvent` frame ends with exactly one blank line and
has no blank line before the terminator; the part_002 concat variant
satisfies the same shape only when the data-line list is non-empty. -/
theorem C8_frame_termination :
    (∀ i : HonoSSE.Intent, intentClean i = true →
      frameShapeOk (splitNlStr (HonoSSE.encodeIntent i)) = true) ∧
    (∀ (et : String) (dl : List String) (o : HonoSSE.DatastarEventOptions),
      noNlB et = true → dl ≠ [] → (∀ l ∈ dl, noNlB l = true) →
      optClean o.eventId = true →
      frameShapeOk (splitNlStr (HonoSSE.sendEventV2 et dl o)) = true) := by
  constructor
  · intro i hclean
    cases i with
    | mergeSignals signals options =>
      show frameShapeOk (splitNlStr (HonoSSE.sendEvent HonoSSE.MERGE_SIGNALS
        (["signals " ++ stringifyStr signals]
          ++ (if options.onlyIfMissing = some true then ["onlyIfMissing true"] else []))
        { eventId := options.eventId, retryDuration := options.retryDuration })) = true
      apply sendEvent_frameShapeOk
      · decide
      · intro l hl
        rcases List.mem_append.mp hl with h1 | h2
        · rw [List.mem_singleton] at h1
          subst h1
          rw [noNlB_append, stringifyStr_noNlB, Bool.and_true]
          decide
        · by_cases hm : options.onlyIfMissing = some true
          · rw [if_pos hm] at h2
            rw [List.mem_singleton] at h2
            subst h2
            decide
          · rw [if_neg hm] at h2
            simp at h2
      · exact hclean
    | mergeFragments fragments options =>
      simp only [intentClean, Bool.and_eq_true] at hclean
      obtain ⟨⟨hf, hs⟩, hid⟩ := hclean
      show frameShapeOk (splitNlStr (HonoSSE.sendEvent HonoSSE.MERGE_FRAGMENTS
        (["fragments " ++ fragments]
          ++ (match options.selector with
            | some s => if s ≠ "" then ["selector " ++ s] else []
            | none => [])
          ++ (match options.mergeMode with
            | some m => if m ≠ .morph then ["mergeMode " ++ HonoSSE.mergeModeStr m] else []
            | none => [])
          ++ (if options.useViewTransition = some true then ["useViewTransition true"] else []))
        { eventId := options.eventId, retryDuration := options.retryDuration })) = true
      apply sendEvent_frameShapeOk
      · decide
      · intro l hl
        rcases List.mem_append.mp hl with h1 | hV
        · rcases List.mem_append.mp h1 with h2 | hM
          · rcases List.mem_append.mp h2 with hF | hS
            · rw [List.mem_singleton] at hF
              subst hF
              rw [noNlB_append, hf, Bool.and_true]
              decide
            · match hsel : options.selector with
              | none => rw [hsel] at hS; simp at hS
              | some sel =>
                rw [hsel] at hS
                simp only [ne_eq] at hS
                by_cases hse : sel = ""
                · simp [hse] at hS
                · rw [if_pos hse] at hS
                  rw [List.mem_singleton] at hS
                  subst hS
                  rw [noNlB_append]
                  have hc : noNlB sel = true := by
                    rw [hsel] at hs
                    simpa [optClean] using hs
                  rw [hc, Bool.and_true]
                  decide
          · match hmm : options.mergeMode with
            | none => rw [hmm] at hM; simp at hM
            | some m =>
              rw [hmm] at hM
              simp only [ne_eq] at hM
              by_cases hmo : m = HonoSSE.MergeMode.morph
              · simp [hmo] at hM
              · rw [if_pos hmo] at hM
                rw [List.mem_singleton] at hM
                subst hM
                rw [noNlB_append, mergeModeStr_clean, Bool.and_true]
                decide
        · by_cases hv : options.useViewTransition = some true
          · rw [if_pos hv] at hV
            rw [List.mem_singleton] at hV
            subst hV
            decide
          · rw [if_neg hv] at hV
            simp at hV
      · exact hid
    | removeFragments selector options =>
      simp only [intentClean, Bool.and_eq_true] at hclean
      obtain ⟨hsel, hid⟩ := hclean
      show frameShapeOk (splitNlStr (HonoSSE.sendEvent HonoSSE.REMOVE_FRAGMENTS
        ["selector " ++ selector] options)) = true
      apply sendEvent_frameShapeOk
      · decide
      · intro l hl
        rw [List.mem_singleton] at hl
        subst hl
        rw [noNlB_append, hsel, Bool.and_true]
        decide
      · exact hid
    | removeSignals paths options =>
      simp only [intentClean, Bool.and_eq_true] at hclean
      obtain ⟨hp, hid⟩ := hclean
      show frameShapeOk (splitNlStr (HonoSSE.sendEvent HonoSSE.REMOVE_SIGNALS
        (paths.map (fun path => "paths " ++ path)) options)) = true
      apply sendEvent_frameShapeOk
      · decide
      · intro l hl
        obtain ⟨p, hpmem, hpl⟩ := List.mem_map.mp hl
        subst hpl
        rw [List.all_eq_true] at hp
        have hpp : noNlB p = true := hp p hpmem
        rw [noNlB_append, hpp, Bool.and_true]
        decide
      · exact hid
    | executeScript script options =>
      simp only [intentClean, Bool.and_eq_true] at hclean
      obtain ⟨⟨hsc, hat⟩, hid⟩ := hclean
      show frameShapeOk (splitNlStr (HonoSSE.sendEvent HonoSSE.EXECUTE_SCRIPT
        (["script " ++ script]
          ++ (match options.attributes with
            | some (.list attrs) => attrs.map (fun attr => "attributes " ++ attr)
            | some (.record entries) =>
              entries.map (fun kv => "attributes " ++ kv.1 ++ " " ++ kv.2)
            | none => [])
          ++ (match options.autoRemove with
            | some b => ["autoRemove " ++ (if b then "true" else "false")]
            | none => []))
        { eventId := options.eventId, retryDuration := options.retryDuration })) = true
      apply sendEvent_frameShapeOk
      · decide
      · intro l hl
        rcases List.mem_append.mp hl with h1 | hR
        · rcases List.mem_append.mp h1 with hSc | hA
          · rw [List.mem_singleton] at hSc
            subst hSc
            rw [noNlB_append, hsc, Bool.and_true]
            decide
          · match hattr : options.attributes with
            | none => rw [hattr] at hA; simp at hA
            | some (.list attrs) =>
              rw [hattr] at hA
              obtain ⟨a, hamem, hal⟩ := List.mem_map.mp hA
              subst hal
              rw [hattr] at hat
              simp only [attrsClean, List.all_eq_true] at hat
              have haa : noNlB a = true := hat a hamem
              rw [noNlB_append, haa, Bool.and_true]
              decide
            | some (.record entries) =>
              rw [hattr] at hA
              obtain ⟨kv, hkmem, hkl⟩ := List.mem_map.mp hA
              subst hkl
              rw [hattr] at hat
              simp only [attrsClean, List.all_eq_true] at hat
              have hkb := hat kv hkmem
              rw [Bool.and_eq_true] at hkb
              rw [noNlB_append, noNlB_append, noNlB_append, hkb.1, hkb.2]
              decide
        · match har : options.autoRemove with
          | none => rw [har] at hR; simp at hR
          | some b =>
            rw [har] at hR
            rw [List.mem_singleton] at hR
            subst hR
            cases b <;> decide
      · exact hid
  · intro et dl o het hne hdl hid
    rw [sendEventV2_eq_sendEvent et dl o hne]
    exact sendEvent_frameShapeOk et dl o het hdl hid

/-- C8 counterexample: the claim fails without the amendments — a fragments
payload with an embedded blank line puts a blank line before the terminator,
and the part_002 variant with an empty data-line list ends with two blank
lines instead of one. -/
theorem C8_counterexample :
    frameShapeOk (splitNlStr (HonoSSE.encodeIntent
      (.mergeFragments "a\n\nb" {}))) = false ∧
    frameShapeOk (splitNlStr (HonoSSE.sendEventV2 "datastar-remove-signals" [] {})) = false := by
  constructor
  · decide
  · decide

/-- C8 witness: both conjuncts of the theorem applied to concrete
newline-free inputs. -/
theorem C8_frame_termination_witness :
    frameShapeOk (splitNlStr (HonoSSE.encodeIntent
      (.mergeSignals (JsonValue.obj [("shape", JsonValue.str "heart")]) {}))) = true ∧
    frameShapeOk (splitNlStr (HonoSSE.sendEventV2 "datastar-merge-fragments"
      ["fragments <div>x</div>"] {})) = true :=
  ⟨C8_frame_termination.1
      (.mergeSignals (JsonValue.obj [("shape", JsonValue.str "heart")]) {}) (by decide),
    C8_frame_termination.2 "datastar-merge-fragments" ["fragments <div>x</div>"] {}
      (by decide) (by decide) (by decide) (by decide)⟩
